import Mathlib

/-!
Verification development for the Dify-to-OpenAI workflow gateway
(`workflowHandler.js`): a shallow embedding of the request/response
translation engine — message extraction, input mapping, the file uploader,
the backend request body, and the blocking/streaming response translators —
together with theorems about the embedded definitions.

Strings are modelled as `List Char` (`Str`); JavaScript values that flow
through the handler are modelled by the `Json` type below, which includes
an `undef` constructor for JavaScript `undefined`.  JavaScript exceptions
(`TypeError` on property access of `null`/`undefined`, invalid-input throws)
are modelled with `Except Str`.  Outbound HTTP is modelled by oracle
functions supplied as parameters; every call made to an oracle is recorded
so that theorems can speak about which calls occurred.
-/

/-- Character sequences; the model of JavaScript strings. -/
abbrev Str := List Char

/-- Converts a Lean string literal to the `Str` model. -/
def strL (s : String) : Str := s.data

/-- Whitespace for the model of `String.prototype.trim` (the common ASCII
whitespace characters; the full JS set also covers rare Unicode spaces that
never occur in the data handled here). -/
def jsWs (c : Char) : Bool :=
  c == ' ' || c == '\t' || c == '\n' || c == '\r' || c == '\x0b' || c == '\x0c'

/-- Model of `String.prototype.trim`. -/
def jsTrim (s : Str) : Str :=
  ((s.dropWhile jsWs).reverse.dropWhile jsWs).reverse

/-- Model of `String.prototype.startsWith` (list prefix test). -/
def isPrefixL : Str → Str → Bool
  | [], _ => true
  | _ :: _, [] => false
  | c :: cs, d :: ds => c == d && isPrefixL cs ds

/-- Substring containment, the model of `String.prototype.includes`. -/
def containsL (pat s : Str) : Bool :=
  (List.range (s.length + 1)).any (fun i => isPrefixL pat (s.drop i))

/-- Model of `str.split(sep)` for a single-character separator. -/
def splitOnChar (sep : Char) : Str → List Str
  | [] => [[]]
  | c :: rest =>
    let r := splitOnChar sep rest
    if c = sep then [] :: r
    else
      match r with
      | l :: ls => (c :: l) :: ls
      | [] => [[c]]

/-- Model of `buffer.split("\n")` as used by the stream loop: the pair of
(all complete lines, the final — possibly partial — line). The source
processes `lines[0 .. length-2]` and retains `lines[length-1]` as the new
buffer (lines 422–424, 507 of `workflowHandler.js`). -/
def splitNLParts : Str → List Str × Str
  | [] => ([], [])
  | c :: rest =>
    let r := splitNLParts rest
    if c = '\n' then ([] :: r.1, r.2)
    else
      match r with
      | (l :: ls, last) => ((c :: l) :: ls, last)
      | ([], last) => ([], c :: last)

/-- JavaScript values as they occur in this handler: JSON values plus
`undefined`.  Numbers are modelled as rationals (exact for the decimal
literals that occur here; the handler performs no arithmetic on them). -/
inductive Json where
  | undef
  | null
  | bool (b : Bool)
  | num (q : Rat)
  | str (s : Str)
  | arr (xs : List Json)
  | obj (fields : List (Str × Json))

/-- Decimal rendering of a JSON number.  The handler only ever re-serialises
integers (timestamps, token counts, indices), for which this matches
JavaScript exactly. -/
def renderNum (q : Rat) : Str :=
  if q.den = 1 then strL (toString q.num) else strL (toString q)

/-- JSON string escaping for one character (the escapes JSON.stringify
produces for the characters that occur in this handler's data). -/
def escChar (c : Char) : Str :=
  if c = '"' then ['\\', '"']
  else if c = '\\' then ['\\', '\\']
  else if c = '\n' then ['\\', 'n']
  else if c = '\r' then ['\\', 'r']
  else if c = '\t' then ['\\', 't']
  else [c]

/-- JSON rendering of a string. -/
def renderStr (s : Str) : Str := '"' :: (s.map escChar).flatten ++ ['"']

mutual

/-- Model of `JSON.stringify`.  Object fields whose value is `undefined`
are omitted, as JavaScript does; `undefined` inside an array renders as
`null`, as JavaScript does. -/
def Json.render : Json → Str
  | .undef => strL "null"
  | .null => strL "null"
  | .bool true => strL "true"
  | .bool false => strL "false"
  | .num q => renderNum q
  | .str s => renderStr s
  | .arr xs => '[' :: Json.renderList xs ++ [']']
  | .obj fs => '\x7b' :: Json.renderFields true fs ++ ['\x7d']
termination_by structural j => j

/-- Comma-separated rendering of array elements. -/
def Json.renderList : List Json → Str
  | [] => []
  | [x] => Json.render x
  | x :: y :: rest => Json.render x ++ ',' :: Json.renderList (y :: rest)
termination_by structural xs => xs

/-- Comma-separated rendering of object fields, skipping `undefined` values. -/
def Json.renderFields : Bool → List (Str × Json) → Str
  | _, [] => []
  | first, (k, v) :: rest =>
    match v with
    | .undef => Json.renderFields first rest
    | _ =>
      (if first then [] else [',']) ++ renderStr k ++ ':' :: Json.render v
        ++ Json.renderFields false rest
termination_by structural _ fs => fs

end

/-- Property read `j[k]`, total where JavaScript is total: reading a missing
property of an object (or any property of a primitive) yields `undefined`. -/
def Json.get (j : Json) (k : Str) : Json :=
  match j with
  | .obj fs =>
    match fs.find? (fun kv => kv.1 == k) with
    | some kv => kv.2
    | none => .undef
  | _ => (.undef)

/-- Property read `j[k]` where JavaScript would raise: reading a property of
`null` or `undefined` throws a `TypeError`. -/
def Json.jsIndex (j : Json) (k : Str) : Except Str Json :=
  match j with
  | .undef => .error (strL "TypeError")
  | .null => .error (strL "TypeError")
  | _ => .ok (j.get k)

/-- Array element read `j[i]` (used for stating properties about
`choices[0]`). -/
def Json.item (j : Json) (i : Nat) : Json :=
  match j with
  | .arr xs => xs.getD i .undef
  | _ => (.undef)

/-- JavaScript truthiness. -/
def Json.truthy : Json → Bool
  | .undef => false
  | .null => false
  | .bool b => b
  | .num q => q != 0
  | .str s => !s.isEmpty
  | .arr _ => true
  | .obj _ => true

/-- Strict equality `j === "lit"` against a string literal. -/
def jsStrEq (j : Json) (s : Str) : Bool :=
  match j with
  | .str t => t == s
  | _ => false

mutual

/-- Model of JavaScript string coercion (`String(v)` and `"" + v`). -/
def Json.jsToString : Json → Str
  | .undef => strL "undefined"
  | .null => strL "null"
  | .bool true => strL "true"
  | .bool false => strL "false"
  | .num q => renderNum q
  | .str s => s
  | .arr xs => Json.jsToStringArr xs
  | .obj _ => strL "[object Object]"
termination_by structural j => j

/-- `Array.prototype.toString`: elements joined with commas, where `null`
and `undefined` elements render as empty. -/
def Json.jsToStringArr : List Json → Str
  | [] => []
  | [x] =>
    match x with
    | .undef => []
    | .null => []
    | j => Json.jsToString j
  | x :: y :: rest =>
    (match x with
     | .undef => []
     | .null => []
     | j => Json.jsToString j) ++ ',' :: Json.jsToStringArr (y :: rest)
termination_by structural xs => xs

end

/-! JSON parsing: a model of `JSON.parse` (strict JSON grammar), written with
explicit fuel so that every definition is structurally recursive and
kernel-reducible.  The fuel passed at top level is amply larger than any
possible recursion depth for the given input. -/

/-- JSON insignificant whitespace. -/
def jsonWsChar (c : Char) : Bool :=
  c == ' ' || c == '\t' || c == '\n' || c == '\r'

/-- Skips insignificant whitespace. -/
def skipWs (cs : Str) : Str := cs.dropWhile jsonWsChar

/-- Hexadecimal digit value. -/
def hexVal (c : Char) : Option Nat :=
  if '0' ≤ c ∧ c ≤ '9' then some (c.toNat - 48)
  else if 'a' ≤ c ∧ c ≤ 'f' then some (c.toNat - 87)
  else if 'A' ≤ c ∧ c ≤ 'F' then some (c.toNat - 55)
  else none

/-- Parses the body of a JSON string (after the opening quote), handling
escapes.  Returns the string and the remaining input. -/
def parseStringBody (fuel : Nat) (cs : Str) (acc : Str) : Option (Str × Str) :=
  match fuel with
  | 0 => none
  | fuel + 1 =>
    match cs with
    | [] => none
    | '"' :: rest => some (acc.reverse, rest)
    | '\\' :: rest =>
      match rest with
      | [] => none
      | e :: rest2 =>
        if e = '"' then parseStringBody fuel rest2 ('"' :: acc)
        else if e = '\\' then parseStringBody fuel rest2 ('\\' :: acc)
        else if e = '/' then parseStringBody fuel rest2 ('/' :: acc)
        else if e = 'b' then parseStringBody fuel rest2 ('\x08' :: acc)
        else if e = 'f' then parseStringBody fuel rest2 ('\x0c' :: acc)
        else if e = 'n' then parseStringBody fuel rest2 ('\n' :: acc)
        else if e = 'r' then parseStringBody fuel rest2 ('\r' :: acc)
        else if e = 't' then parseStringBody fuel rest2 ('\t' :: acc)
        else if e = 'u' then
          match rest2 with
          | h1 :: h2 :: h3 :: h4 :: rest3 =>
            match hexVal h1, hexVal h2, hexVal h3, hexVal h4 with
            | some a, some b, some c, some d =>
              parseStringBody fuel rest3
                (Char.ofNat (((a * 16 + b) * 16 + c) * 16 + d) :: acc)
            | _, _, _, _ => none
          | _ => none
        else none
    | c :: rest =>
      if c.toNat < 32 then none
      else parseStringBody fuel rest (c :: acc)

/-- Leading run of decimal digits and the remainder. -/
def spanDigits (cs : Str) : Str × Str :=
  (cs.takeWhile Char.isDigit, cs.dropWhile Char.isDigit)

/-- Value of a digit run. -/
def digitsToNat (ds : Str) : Nat :=
  ds.foldl (fun a c => a * 10 + (c.toNat - 48)) 0

/-- Parses a JSON number (strict grammar: optional minus, integer part with
no superfluous leading zero, optional fraction, optional exponent). -/
def parseNumber (cs : Str) : Option (Rat × Str) :=
  let (neg, cs1) :=
    match cs with
    | '-' :: r => (true, r)
    | _ => (false, cs)
  let (ids, r1) := spanDigits cs1
  if ids.isEmpty then none
  else if ids.head? = some '0' ∧ ids.length ≠ 1 then none
  else
    let (fds, r2) :=
      match r1 with
      | '.' :: t => (some (spanDigits t).1, (spanDigits t).2)
      | _ => (none, r1)
    if fds = some [] then none
    else
      let (eds, esign, r3) :=
        match r2 with
        | 'e' :: '+' :: t => (some (spanDigits t).1, (1 : Int), (spanDigits t).2)
        | 'e' :: '-' :: t => (some (spanDigits t).1, (-1 : Int), (spanDigits t).2)
        | 'e' :: t => (some (spanDigits t).1, (1 : Int), (spanDigits t).2)
        | 'E' :: '+' :: t => (some (spanDigits t).1, (1 : Int), (spanDigits t).2)
        | 'E' :: '-' :: t => (some (spanDigits t).1, (-1 : Int), (spanDigits t).2)
        | 'E' :: t => (some (spanDigits t).1, (1 : Int), (spanDigits t).2)
        | _ => (none, (1 : Int), r2)
      if eds = some [] then none
      else
        let mant : Rat :=
          (digitsToNat ids : Rat) +
            (match fds with
             | some d => (digitsToNat d : Rat) / ((10 : Rat) ^ d.length)
             | none => 0)
        let ex : Int := esign * (match eds with | some d => (digitsToNat d : Int) | none => 0)
        let mag : Rat := (10 : Rat) ^ ex.natAbs
        let v : Rat := if 0 ≤ ex then mant * mag else mant / mag
        some ((if neg then -v else v), r3)

/-- Inserts or overwrites an object field, as later duplicate keys do in
`JSON.parse` (position kept, value overwritten). -/
def objUpsert (fs : List (Str × Json)) (k : Str) (v : Json) : List (Str × Json) :=
  match fs with
  | [] => [(k, v)]
  | (k0, v0) :: rest =>
    if k0 = k then (k0, v) :: rest else (k0, v0) :: objUpsert rest k v

mutual

/-- Parses one JSON value; returns it with the remaining input. -/
def parseVal (fuel : Nat) (cs : Str) : Option (Json × Str) :=
  match fuel with
  | 0 => none
  | fuel + 1 =>
    match skipWs cs with
    | 'n' :: 'u' :: 'l' :: 'l' :: r => some (.null, r)
    | 't' :: 'r' :: 'u' :: 'e' :: r => some (.bool true, r)
    | 'f' :: 'a' :: 'l' :: 's' :: 'e' :: r => some (.bool false, r)
    | '"' :: r =>
      match parseStringBody (r.length + 1) r [] with
      | some (s, rest) => some (.str s, rest)
      | none => none
    | '[' :: r =>
      match skipWs r with
      | ']' :: r2 => some (.arr [], r2)
      | _ => parseArrItems fuel r []
    | '\x7b' :: r =>
      match skipWs r with
      | '\x7d' :: r2 => some (.obj [], r2)
      | _ => parseObjItems fuel r []
    | rest =>
      match parseNumber rest with
      | some (q, r) => some (.num q, r)
      | none => none
termination_by structural fuel

/-- Parses array elements after `[` (at least one element present). -/
def parseArrItems (fuel : Nat) (cs : Str) (acc : List Json) : Option (Json × Str) :=
  match fuel with
  | 0 => none
  | fuel + 1 =>
    match parseVal fuel cs with
    | none => none
    | some (v, r) =>
      match skipWs r with
      | ',' :: r2 => parseArrItems fuel r2 (v :: acc)
      | ']' :: r2 => some (.arr (v :: acc).reverse, r2)
      | _ => none
termination_by structural fuel

/-- Parses object members after `\x7b` (at least one member present). -/
def parseObjItems (fuel : Nat) (cs : Str) (acc : List (Str × Json)) :
    Option (Json × Str) :=
  match fuel with
  | 0 => none
  | fuel + 1 =>
    match skipWs cs with
    | '"' :: r =>
      match parseStringBody (r.length + 1) r [] with
      | none => none
      | some (k, r2) =>
        match skipWs r2 with
        | ':' :: r3 =>
          match parseVal fuel r3 with
          | none => none
          | some (v, r4) =>
            match skipWs r4 with
            | ',' :: r5 => parseObjItems fuel r5 (objUpsert acc k v)
            | '\x7d' :: r5 => some (.obj (objUpsert acc k v), r5)
            | _ => none
        | _ => none
    | _ => none
termination_by structural fuel

end

/-- Model of `JSON.parse`: `none` models a thrown `SyntaxError`. -/
def parseJson (s : Str) : Option Json :=
  match parseVal (4 * s.length + 8) s with
  | some (j, rest) => if (skipWs rest).isEmpty then some j else none
  | none => none

/-! Configuration and the uploader (`uploadFileToDify`, source lines 53–147). -/

/-- The resolved configuration object.  Optional fields model environment
variables that may be absent; JavaScript truthiness (absent or empty string
is falsy) is applied wherever the source tests them. -/
structure Config where
  DIFY_API_URL : Str := []
  API_KEY : Str := []
  USER : Option Str := none
  SYSTEM_INPUT_VARIABLE : Option Str := none
  INPUT_VARIABLE : Option Str := none
  OUTPUT_VARIABLE : Option Str := none

/-- Truthiness of an optional configuration string. -/
def optTruthy (o : Option Str) : Bool :=
  match o with
  | some s => !s.isEmpty
  | none => false

/-- The value of an optional configuration string (only read when truthy). -/
def optVal (o : Option Str) : Str := o.getD []

/-- The separator of the data-URI regex `^data:(.+);base64,(.+)$`. -/
def sepB64 : Str := strL ";base64,"

/-- Characters the JavaScript regex `.` matches (everything except the four
line terminators). -/
def lineOk (c : Char) : Bool :=
  !(c == '\n' || c == '\r' || c.val == 8232 || c.val == 8233)

/-- A string free of line terminators (what `(.+)` can span). -/
def cleanStr (s : Str) : Bool := s.all lineOk

/-- Backtracking search for the decomposition `m ++ ";base64," ++ p` chosen
by the greedy regex `(.+);base64,(.+)$`: the longest `m` (possibly empty at
this level) consisting of non-line-terminator characters such that the rest
`p` is non-empty and free of line terminators. -/
def dataUriMatchAux : Str → Option (Str × Str)
  | [] => none
  | c :: rest =>
    match (if lineOk c then (dataUriMatchAux rest).map (fun mp => (c :: mp.1, mp.2)) else none) with
    | some r => some r
    | none =>
      if isPrefixL sepB64 (c :: rest) then
        if (c :: rest).drop 8 ≠ [] ∧ cleanStr ((c :: rest).drop 8) = true then
          some ([], (c :: rest).drop 8)
        else none
      else none

/-- Model of `base64Data.match(/^data:(.+);base64,(.+)$/)`: the captured
(mime, payload) groups, or `none` when the regex does not match. -/
def matchDataUri (s : Str) : Option (Str × Str) :=
  if isPrefixL (strL "data:") s then
    match dataUriMatchAux (s.drop 5) with
    | some (m, p) => if m = [] then none else some (m, p)
    | none => none
  else none

/-- `contentType.split("/")[1]`, with JavaScript's `undefined` interpolating
as the text "undefined" when the content type has no slash. -/
def mimeSub (ct : Str) : Str :=
  match splitOnChar '/' ct with
  | _ :: s :: _ => s
  | _ => strL "undefined"

/-- The multipart form constructed by the uploader: file part (filename,
content type, payload) plus the `user` field. -/
structure UploadForm where
  filename : Str
  contentType : Str
  payload : Str
  user : Json

/-- The backend's answer to a file-upload POST, as seen by the uploader. -/
structure UploadResp where
  ok : Bool
  status : Nat
  statusText : Str
  body : Str

/-- The HTTP collaborator for `POST /files/upload`. -/
abbrev UploadOracle := UploadForm → UploadResp

/-- The mime normalization of source lines 65–67 (`image/jpg` becomes
`image/jpeg`). -/
def normalizeMime (m : Str) : Str :=
  if m = strL "image/jpg" then strL "image/jpeg" else m

/-- The multipart form the uploader builds for captured groups (mime,
payload): filename `file.<ext>` with `<ext>` the subtype of the normalized
content type (source lines 70–100). -/
def uploadFormFor (userId : Json) (mime payload : Str) : UploadForm :=
  { filename := strL "file." ++ mimeSub (normalizeMime mime),
    contentType := normalizeMime mime, payload := payload, user := userId }

/-- Model of `uploadFileToDify` (source lines 53–147).  Returns the result
(`.ok fileId` from the response body's `id` field, or `.error` for a thrown
`Error`) together with the list of HTTP calls made (empty when the data URI
does not match the regex, a single form otherwise). -/
def uploadFileToDify (oracle : UploadOracle) (base64Data : Str) (_cfg : Config)
    (userId : Json) : Except Str Json × List UploadForm :=
  match matchDataUri base64Data with
  | none => (.error (strL "Invalid base64 data"), [])
  | some (mime, payload) =>
    let form := uploadFormFor userId mime payload
    let response := oracle form
    ((if ¬ response.ok then
        .error (strL "upload failed: " ++ strL (toString response.status) ++ strL " "
          ++ response.statusText ++ strL ": " ++ response.body)
      else
        match parseJson response.body with
        | none => .error (strL "invalid JSON in upload response")
        | some result => .ok (result.get (strL "id"))), [form])

/-- The claim's shape `data:<mime>;base64,<payload>`: some decomposition with
non-empty mime and payload, neither spanning a line terminator (which the
regex `.` cannot match). -/
def dataUriShape (s : Str) : Prop :=
  ∃ m p, s = strL "data:" ++ m ++ sepB64 ++ p ∧ m ≠ [] ∧ p ≠ [] ∧
    cleanStr m = true ∧ cleanStr p = true

/-! The inputs mapping, message extraction and the scan for image content
(source lines 150–359). -/

/-- One element of `inputs["file_input"]`.  Exactly one of `upload_file_id`
and `url` is present, matching `transfer_method`. -/
structure FileInput where
  transfer_method : Str
  upload_file_id : Option Json := none
  url : Option Str := none
  type : Str

/-- A value stored in the `inputs` object: a text variable or the
`file_input` array. -/
inductive InputVal where
  | s (v : Str)
  | files (fs : List FileInput)

/-- The `inputs` object: keys in insertion order. -/
abbrev Inputs := List (Str × InputVal)

/-- Property lookup on `inputs`. -/
def lookupInp : Inputs → Str → Option InputVal
  | [], _ => none
  | (k0, v0) :: rest, k => if k0 = k then some v0 else lookupInp rest k

/-- Property assignment on `inputs` (JavaScript object semantics: overwrite
in place, or append a new key). -/
def upsertInp : Inputs → Str → InputVal → Inputs
  | [], k, v => [(k, v)]
  | (k0, v0) :: rest, k, v =>
    if k0 = k then (k0, v) :: rest else (k0, v0) :: upsertInp rest k v

/-- The `"file_input"` key. -/
def fileInputKey : Str := strL "file_input"

/-- Truthiness of `inputs["file_input"]` (arrays are truthy even when
empty). -/
def inputValTruthy : Option InputVal → Bool
  | none => false
  | some (.s v) => !v.isEmpty
  | some (.files _) => true

/-- Source lines 194–198 / 209–213: create `inputs["file_input"] = []` if it
is falsy, then push one `FileInput`.  (The fall-through arm is unreachable
from the handler, whose `inputs` starts empty: `file_input` only ever holds
an array.) -/
def pushFileInput (m : Inputs) (fi : FileInput) : Inputs :=
  let m1 :=
    if inputValTruthy (lookupInp m fileInputKey) then m
    else upsertInp m fileInputKey (.files [])
  match lookupInp m1 fileInputKey with
  | some (.files fs) => upsertInp m1 fileInputKey (.files (fs ++ [fi]))
  | _ => m1

/-- Accumulator of the image scan: the growing `inputs` object, the
uploader invocations (data URL, user id) and the multipart forms sent. -/
structure ScanAcc where
  inputs : Inputs
  calls : List (Str × Json)
  forms : List UploadForm

/-- Source lines 173–215: one content part of the image scan.  `fe` and `ft`
are the external collaborators `getFileExtension` and `getFileType` from
`utils.js` (not part of this file's source). -/
def scanPart (fe ft : Str → Str) (oracle : UploadOracle) (cfg : Config)
    (userId : Json) (acc : ScanAcc) (content : Json) : Except Str ScanAcc :=
  if jsStrEq (content.get (strL "type")) (strL "image_url")
      ∧ (content.get (strL "image_url")).truthy = true
      ∧ ((content.get (strL "image_url")).get (strL "url")).truthy = true then
    match (content.get (strL "image_url")).get (strL "url") with
    | .str imageUrl =>
      if isPrefixL (strL "data:") imageUrl then
        let fileType := ft (fe imageUrl)
        match uploadFileToDify oracle imageUrl cfg userId with
        | (.error e, _) => .error e
        | (.ok fileId, fms) =>
          let fi : FileInput :=
            { transfer_method := strL "local_file", upload_file_id := some fileId,
              type := fileType }
          .ok { inputs := pushFileInput acc.inputs fi,
                calls := acc.calls ++ [(imageUrl, userId)],
                forms := acc.forms ++ fms }
      else
        let fi : FileInput :=
          { transfer_method := strL "remote_url", url := some imageUrl,
            type := ft (fe imageUrl) }
        .ok { acc with inputs := pushFileInput acc.inputs fi }
    | _ => .error (strL "TypeError")
  else .ok acc

/-- Source lines 171–218: scan one message — only array-valued content is
walked; reading `.content` raises on a `null`/`undefined` message. -/
def scanMessage (fe ft : Str → Str) (oracle : UploadOracle) (cfg : Config)
    (userId : Json) (acc : ScanAcc) (message : Json) : Except Str ScanAcc := do
  let content ← message.jsIndex (strL "content")
  match content with
  | .arr parts => parts.foldlM (scanPart fe ft oracle cfg userId) acc
  | _ => pure acc

/-- The whole image scan over all messages, starting from empty `inputs`. -/
def scanMessages (fe ft : Str → Str) (oracle : UploadOracle) (cfg : Config)
    (userId : Json) (messages : List Json) : Except Str ScanAcc :=
  messages.foldlM (scanMessage fe ft oracle cfg userId) ⟨[], [], []⟩

/-- Source lines 225–239: accumulate the system prompt.  String parts and
`type === "text"` parts contribute (the latter's `.text` JavaScript-coerced,
as `+=` does); non-array content is coerced and appended. -/
def extractSystemPrompt (messages : List Json) : Except Str Str :=
  messages.foldlM (fun acc m => do
    let role ← m.jsIndex (strL "role")
    if jsStrEq role (strL "system") then do
      let content0 ← m.jsIndex (strL "content")
      match content0 with
      | .arr parts =>
        parts.foldlM (fun a p =>
          match p with
          | .str v => .ok (a ++ v ++ ['\n'])
          | _ => do
            let t ← p.jsIndex (strL "type")
            if jsStrEq t (strL "text") then
              .ok (a ++ (p.get (strL "text")).jsToString ++ ['\n'])
            else .ok a) acc
      | content => .ok (acc ++ content.jsToString ++ ['\n'])
    else .ok acc) []

/-- Source lines 247–295: accumulate the user query.  In array content,
string parts and truthy parts with `type === "text"` and a string `.text`
contribute; everything else is skipped.  Non-array content contributes
directly (strings) or via `String(...)` coercion. -/
def extractUserQuery (messages : List Json) : Except Str Str :=
  messages.foldlM (fun acc m => do
    let role ← m.jsIndex (strL "role")
    if jsStrEq role (strL "user") then do
      let content0 ← m.jsIndex (strL "content")
      match content0 with
      | .arr parts =>
        .ok (parts.foldl (fun a p =>
          match p with
          | .str v => a ++ v ++ ['\n']
          | _ =>
            if p.truthy ∧ jsStrEq (p.get (strL "type")) (strL "text") then
              match p.get (strL "text") with
              | .str tx => a ++ tx ++ ['\n']
              | _ => a
            else a) acc)
      | .str v => .ok (acc ++ v ++ ['\n'])
      | content => .ok (acc ++ content.jsToString ++ ['\n'])
    else .ok acc) []

/-- Source lines 306–342: the input-variable mapping, applied to the scanned
`inputs` with the (trimmed) system prompt and user query. -/
def applyTextInputs (cfg : Config) (inputs : Inputs) (systemPrompt userQuery : Str) :
    Inputs :=
  let inputs1 :=
    if optTruthy cfg.SYSTEM_INPUT_VARIABLE ∧ !systemPrompt.isEmpty then
      upsertInp inputs (optVal cfg.SYSTEM_INPUT_VARIABLE) (.s systemPrompt)
    else inputs
  let inputVariable :=
    if optTruthy cfg.INPUT_VARIABLE then optVal cfg.INPUT_VARIABLE else strL "text_input"
  let inputs2 := upsertInp inputs1 inputVariable (.s userQuery)
  if ¬ optTruthy cfg.SYSTEM_INPUT_VARIABLE ∧ !systemPrompt.isEmpty then
    upsertInp inputs2 inputVariable (.s (systemPrompt ++ strL "\n\n" ++ userQuery))
  else inputs2

/-- The effective input-variable name (`config.INPUT_VARIABLE || "text_input"`). -/
def effectiveInputVariable (cfg : Config) : Str :=
  if optTruthy cfg.INPUT_VARIABLE then optVal cfg.INPUT_VARIABLE else strL "text_input"

/-- Source line 166: `config.USER || data.user || "apiuser"`. -/
def computeUserId (cfg : Config) (data : Json) : Json :=
  if optTruthy cfg.USER then .str (optVal cfg.USER)
  else if (data.get (strL "user")).truthy then data.get (strL "user")
  else .str (strL "apiuser")

/-- The JSON body POSTed to `{DIFY_API_URL}/workflows/run` (source lines
354–359). -/
structure WorkflowRequestBody where
  inputs : Inputs
  response_mode : Str
  user : Json
  files : List Json

/-- Source lines 150–359: the request-preparation phase of `handleRequest`,
up to and including construction of the backend request body.  The `files`
variable is initialised to `[]` at line 156 and never modified.  Messages
must be an array for the `for...of` loops (a non-array value raises). -/
def handleRequestPrep (fe ft : Str → Str) (oracle : UploadOracle) (cfg : Config)
    (data : Json) : Except Str (WorkflowRequestBody × ScanAcc) := do
  let files : List Json := []
  let messagesVal ← data.jsIndex (strL "messages")
  match messagesVal with
  | .arr messages => do
    let userId := computeUserId cfg data
    let acc ← scanMessages fe ft oracle cfg userId messages
    let sp0 ← extractSystemPrompt messages
    let uq0 ← extractUserQuery messages
    let systemPrompt := jsTrim sp0
    let userQuery := jsTrim (jsTrim uq0)
    let inputs := applyTextInputs cfg acc.inputs systemPrompt userQuery
    let streamVal :=
      match data.get (strL "stream") with
      | .undef => Json.bool false
      | v => v
    pure ({ inputs := inputs,
            response_mode := if streamVal.truthy then strL "streaming" else strL "blocking",
            user := userId,
            files := files }, acc)
  | _ => .error (strL "TypeError")

/-! The streaming response translator (source lines 413–513). -/

/-- Model of the Node.js HTTP server response object.  `write` transmits a
payload only while the response is open: Node raises
`ERR_STREAM_WRITE_AFTER_END` (asynchronously, with no bytes transmitted)
for a `write` after `end`, and a repeated `end` is likewise wire-inert, so
`writes` records exactly the payloads that reach the client. -/
structure Res where
  writes : List Str
  ended : Bool
  statusCode : Nat
deriving DecidableEq

/-- `res.write(s)`. -/
def Res.write (r : Res) (s : Str) : Res :=
  if r.ended then r else { r with writes := r.writes ++ [s] }

/-- `res.end()`. -/
def Res.endR (r : Res) : Res := { r with ended := true }

/-- `res.status(c)` (only meaningful before the first write flushes the
header; afterwards the field no longer reaches the wire). -/
def Res.status (r : Res) (c : Nat) : Res := { r with statusCode := c }

/-- The state of the streaming translator: the response object and the
`isResponseEnded` latch (source line 413). -/
structure StreamSt where
  res : Res
  isResponseEnded : Bool
deriving DecidableEq

/-- The initial streaming state. -/
def initStreamSt : StreamSt :=
  { res := { writes := [], ended := false, statusCode := 200 }, isResponseEnded := false }

/-- The `data: [DONE]` sentinel line as written by the source. -/
def doneLine : Str := strL "data: [DONE]\n\n"

/-- Source lines 425–439: trim the line, require the `data:` prefix, strip
it, trim, and JSON-parse only when the remainder starts with a brace; parse
failure (the catch at line 436) skips the line.  Yields the parsed frame of
a complete line, if any. -/
def lineEvent (rawLine : Str) : Option Json :=
  let line := jsTrim rawLine
  if isPrefixL (strL "data:") line then
    let payload := jsTrim (line.drop 5)
    if isPrefixL ['\x7b'] payload then parseJson payload else none
  else none

/-- The OpenAI-style chunk written for `workflow_finished` (source lines
462–483).  `now` is `Date.now()`; `created` is the frame's `created_at`;
`model` is the request's `model` field. -/
def finishedChunkJson (model : Json) (now : Nat) (created result : Json) : Json :=
  Json.obj
    [(strL "id", .str (strL "chatcmpl-" ++ strL (toString now))),
     (strL "object", .str (strL "chat.completion.chunk")),
     (strL "created", created),
     (strL "model", model),
     (strL "choices", .arr
       [Json.obj
         [(strL "index", .num 0),
          (strL "delta", Json.obj [(strL "content", result)]),
          (strL "finish_reason", .str (strL "stop"))]])]

/-- Source lines 447–504: the event dispatch for one parsed frame.  An
`.error` models an exception thrown inside the `data` listener (uncaught in
the source — reading `data.outputs` of a frame without `data`, or indexing
a missing `outputs` with `OUTPUT_VARIABLE` set). -/
def dispatchFrame (cfg : Config) (model : Json) (now : Nat) (st : StreamSt)
    (chunkObj : Json) : Except Str StreamSt :=
  match chunkObj.get (strL "event") with
    | .str e =>
      if e = strL "workflow_started" then .ok st
      else if e = strL "node_started" then .ok st
      else if e = strL "node_finished" then .ok st
      else if e = strL "workflow_finished" then do
        let outputs ← (chunkObj.get (strL "data")).jsIndex (strL "outputs")
        let result ←
          if optTruthy cfg.OUTPUT_VARIABLE then outputs.jsIndex (optVal cfg.OUTPUT_VARIABLE)
          else .ok outputs
        let chunkCreated := chunkObj.get (strL "created_at")
        if st.isResponseEnded then .ok st
        else
          let payload := strL "data: "
            ++ Json.render (finishedChunkJson model now chunkCreated result) ++ strL "\n\n"
          .ok { res := ((st.res.write payload).write doneLine).endR, isResponseEnded := true }
      else if e = strL "ping" then .ok st
      else if e = strL "error" then
        let payload := strL "data: "
          ++ Json.render (Json.obj [(strL "error", chunkObj.get (strL "message"))])
          ++ strL "\n\n"
        let res1 := (st.res.status 500).write payload
        let res2 := if st.isResponseEnded then res1 else res1.write doneLine
        .ok { res := res2.endR, isResponseEnded := true }
      else .ok st
    | _ => .ok st

/-- Source lines 424–504: processing of one complete line of the backend
stream — parse the line, then dispatch on its event. -/
def processStreamLine (cfg : Config) (model : Json) (now : Nat) (st : StreamSt)
    (rawLine : Str) : Except Str StreamSt :=
  match lineEvent rawLine with
  | none => .ok st
  | some chunkObj => dispatchFrame cfg model now st chunkObj

/-- Processes a list of complete lines in order. -/
def runStreamLines (cfg : Config) (model : Json) (now : Nat) (st : StreamSt)
    (lines : List Str) : Except Str StreamSt :=
  lines.foldlM (processStreamLine cfg model now) st

/-- A line whose parsed frame carries a terminal event. -/
def isTerminalLine (rawLine : Str) : Bool :=
  match lineEvent rawLine with
  | some obj =>
    match obj.get (strL "event") with
    | .str e => if e = strL "workflow_finished" ∨ e = strL "error" then true else false
    | _ => false
  | none => false

/-- The streaming translator's cross-chunk state: the machine state plus the
accumulation buffer (source line 417). -/
structure DriverSt where
  st : StreamSt
  buffer : Str
deriving DecidableEq

/-- The initial driver state. -/
def initDriverSt : DriverSt := { st := initStreamSt, buffer := [] }

/-- Source lines 420–508: one `data` event.  The chunk is appended to the
buffer, the buffer is split on newlines, all complete lines are processed and
the final (possibly partial) line becomes the new buffer.  An exception
thrown while processing a line aborts the whole stream. -/
def feedChunk (cfg : Config) (model : Json) (now : Nat) (d : Except Str DriverSt)
    (chunk : Str) : Except Str DriverSt :=
  match d with
  | .error e => .error e
  | .ok dst =>
    let parts := splitNLParts (dst.buffer ++ chunk)
    match runStreamLines cfg model now dst.st parts.1 with
    | .error e => .error e
    | .ok st2 => .ok { st := st2, buffer := parts.2 }

/-- Feeds a whole sequence of chunks. -/
def feedChunks (cfg : Config) (model : Json) (now : Nat) (chunks : List Str) :
    Except Str DriverSt :=
  chunks.foldl (feedChunk cfg model now) (.ok initDriverSt)

/-! The blocking path and the response-phase dispatch
(source lines 394–714). -/

/-- The backend's answer to `POST /workflows/run` as consumed by the
handler: HTTP status, `ok` flag, content type and the body, delivered as a
sequence of chunks (`resp.text()` and `resp.json()` read the same bytes
joined). -/
structure BackendResp where
  ok : Bool
  status : Nat
  contentType : Option Str
  chunks : List Str

/-- The body read in one piece (`resp.text()` / `resp.json()`). -/
def BackendResp.bodyText (r : BackendResp) : Str := r.chunks.flatten

/-- The OpenAI-style blocking response document (source lines 558–576 and
670–688, which construct the same literal). -/
def formattedResponseJson (model : Json) (nowSec : Int) (genId : Str)
    (result usageData : Json) : Json :=
  Json.obj
    [(strL "id", .str (strL "chatcmpl-" ++ genId)),
     (strL "object", .str (strL "chat.completion")),
     (strL "created", .num nowSec),
     (strL "model", model),
     (strL "choices", .arr
       [Json.obj
         [(strL "index", .num 0),
          (strL "message", Json.obj
            [(strL "role", .str (strL "assistant")),
             (strL "content", result)]),
          (strL "logprobs", .null),
          (strL "finish_reason", .str (strL "stop"))]]),
     (strL "usage", usageData),
     (strL "system_fingerprint", .str (strL "fp_2f57f81c11"))]

/-- Source lines 528–576: the blocking JSON branch.  `result` and
`usageData` start as empty strings; when `data` and `data.outputs` are
truthy, `result` is `outputs[OUTPUT_VARIABLE]` (if configured) or the whole
`outputs`, and `usageData.total_tokens` is `data.total_tokens || 110`. -/
def blockingFormatted (cfg : Config) (model : Json) (nowSec : Int) (genId : Str)
    (jsonData : Json) : Json :=
  let dta := jsonData.get (strL "data")
  let outputs := dta.get (strL "outputs")
  let result : Json :=
    if dta.truthy ∧ outputs.truthy then
      if optTruthy cfg.OUTPUT_VARIABLE then outputs.get (optVal cfg.OUTPUT_VARIABLE)
      else outputs
    else .str []
  let usageData : Json :=
    if dta.truthy ∧ outputs.truthy then
      Json.obj [(strL "total_tokens",
        if (dta.get (strL "total_tokens")).truthy then dta.get (strL "total_tokens")
        else Json.num 110)]
    else .str []
  formattedResponseJson model nowSec genId result usageData

/-- State of the non-JSON (collected) fallback path (source lines 515–518). -/
structure CollectSt where
  result : Json
  usageData : Json
  buffer : Str
  hasError : Bool

/-- `line.replace(/^data: /, "")` (source line 601). -/
def stripDataPrefix (s : Str) : Str :=
  if isPrefixL (strL "data: ") s then s.drop 6 else s

/-- Whether a string's last character is the closing brace
(`cleanedLine.endsWith("}")`, source line 602). -/
def endsWithBrace (s : Str) : Bool :=
  match s.getLast? with
  | some c => c == '\x7d'
  | none => false

/-- Source lines 596–659: the per-chunk line loop of the collected fallback
path.  The `break` on an `error` event leaves the remaining lines of the
current chunk unprocessed. -/
def processCollectLines (cfg : Config) (st : CollectSt) : List Str → Except Str CollectSt
  | [] => .ok st
  | l :: ls =>
    let line := jsTrim l
    if line.isEmpty then processCollectLines cfg st ls
    else
      let cleanedLine := jsTrim (stripDataPrefix line)
      match (if isPrefixL ['\x7b'] cleanedLine ∧ endsWithBrace cleanedLine = true then
               parseJson cleanedLine
             else none) with
      | none => processCollectLines cfg st ls
      | some chunkObj =>
        match chunkObj.get (strL "event") with
        | .str e =>
          if e = strL "workflow_finished" then do
            let outputs ← (chunkObj.get (strL "data")).jsIndex (strL "outputs")
            let result ←
              if optTruthy cfg.OUTPUT_VARIABLE then outputs.jsIndex (optVal cfg.OUTPUT_VARIABLE)
              else .ok outputs
            let usageData := Json.obj [(strL "total_tokens",
              if ((chunkObj.get (strL "data")).get (strL "total_tokens")).truthy then
                (chunkObj.get (strL "data")).get (strL "total_tokens")
              else Json.num 110)]
            processCollectLines cfg { st with result := result, usageData := usageData } ls
          else if e = strL "ping" then processCollectLines cfg st ls
          else if e = strL "error" then .ok { st with hasError := true }
          else processCollectLines cfg st ls
        | _ => processCollectLines cfg st ls

/-- One `data` event of the collected fallback path (buffering as in the
streaming path). -/
def feedCollectChunk (cfg : Config) (d : Except Str (CollectSt × Str)) (chunk : Str) :
    Except Str (CollectSt × Str) :=
  match d with
  | .error e => .error e
  | .ok (st, buffer) =>
    let parts := splitNLParts (buffer ++ chunk)
    match processCollectLines cfg st parts.1 with
    | .error e => .error e
    | .ok st2 => .ok (st2, parts.2)

/-- What the handler sends back to its own client in the response phase. -/
inductive HandlerOutcome where
  | forwarded (status : Nat) (body : Str)
  | streamed (final : DriverSt)
  | crashed (err : Str)
  | jsonDoc (status : Nat) (doc : Json)

/-- Whether an outcome is a streamed response containing an SSE error
payload (`data: \x7b"error"...`). -/
def isSseErrorWrap (o : HandlerOutcome) : Bool :=
  match o with
  | .streamed d => d.st.res.writes.any (fun w => isPrefixL (strL "data: \x7b\"error\"") w)
  | _ => false

/-- Source lines 394–714: the response phase of `handleRequest`, dispatching
on the upstream status, the `stream` flag and the content type.  `model` is
`data.model` from the request, `now` is `Date.now()`, `nowSec` is
`Math.floor(Date.now()/1000)` and `genId` is `generateId()` (an external
collaborator from `utils.js`). -/
def handleResponsePhase (cfg : Config) (model : Json) (now : Nat) (nowSec : Int)
    (genId : Str) (stream : Bool) (resp : BackendResp) : HandlerOutcome :=
  if ¬ resp.ok then .forwarded resp.status resp.bodyText
  else if stream then
    match feedChunks cfg model now resp.chunks with
    | .error e => .crashed e
    | .ok d => .streamed d
  else if (match resp.contentType with
           | some ct => containsL (strL "application/json") ct
           | none => false) then
    match parseJson resp.bodyText with
    | some jsonData => .jsonDoc 200 (blockingFormatted cfg model nowSec genId jsonData)
    | none => .jsonDoc 500 (Json.obj [(strL "error", .str (strL "invalid json"))])
  else
    match resp.chunks.foldl (feedCollectChunk cfg) (.ok (⟨.str [], .str [], [], false⟩, [])) with
    | .error e => .crashed e
    | .ok (cst, _) =>
      if cst.hasError then
        .jsonDoc 500 (Json.obj [(strL "error",
          .str (strL "An error occurred while processing the request."))])
      else .jsonDoc 200 (formattedResponseJson model nowSec genId cst.result cst.usageData)

/-! Concrete instances used by witnesses and counterexamples. -/

/-- An upload oracle that accepts every form and answers with file id `f1`. -/
def okOracle : UploadOracle :=
  fun _ => { ok := true, status := 200, statusText := strL "OK",
             body := strL "\x7b\"id\":\"f1\"\x7d" }

/-- A configuration with a separate system-input variable. -/
def cfgSys : Config := { SYSTEM_INPUT_VARIABLE := some (strL "sys") }

/-- A configuration whose system-input variable collides with the default
input variable. -/
def cfgCollide : Config := { SYSTEM_INPUT_VARIABLE := some (strL "text_input") }

/-- A configuration selecting the `answer` output variable. -/
def cfgAnswer : Config := { OUTPUT_VARIABLE := some (strL "answer") }

/-- A complete `workflow_finished` frame line. -/
def finLine : Str :=
  strL "data: \x7b\"event\": \"workflow_finished\", \"data\": \x7b\"outputs\": \x7b\"answer\": \"hi\"\x7d\x7d, \"created_at\": 5\x7d"

/-- A complete `error` frame line. -/
def errLine : Str := strL "data: \x7b\"event\": \"error\", \"message\": \"boom\"\x7d"

/-- Classification of one content part for the image-scan claims: the image
URL the part carries, when the scan's guard (`type === "image_url"`, truthy
`image_url`, truthy string `url`) accepts it. -/
def partImageUrl (content : Json) : Option Str :=
  if jsStrEq (content.get (strL "type")) (strL "image_url")
      ∧ (content.get (strL "image_url")).truthy = true then
    match (content.get (strL "image_url")).get (strL "url") with
    | .str u => if u.isEmpty then none else some u
    | _ => none
  else none

/-- All image URLs of one message, in order. -/
def msgImageUrls (m : Json) : List Str :=
  match m.get (strL "content") with
  | .arr parts => parts.filterMap partImageUrl
  | _ => []

/-- All image URLs of the message array, in source order. -/
def messagesImageUrls (ms : List Json) : List Str :=
  (ms.map msgImageUrls).flatten

/-- The `FileInput` the claim prescribes for one image URL: an upload and a
`local_file` reference for a `data:` URL, a direct `remote_url` reference
otherwise (`none` when the upload fails, which aborts the scan). -/
def expectedFileInput (fe ft : Str → Str) (oracle : UploadOracle) (cfg : Config)
    (userId : Json) (u : Str) : Option FileInput :=
  if isPrefixL (strL "data:") u then
    match (uploadFileToDify oracle u cfg userId).1 with
    | .ok fid => some { transfer_method := strL "local_file", upload_file_id := some fid,
                        type := ft (fe u) }
    | .error _ => none
  else some { transfer_method := strL "remote_url", url := some u, type := ft (fe u) }

/-- A failed upstream response observed while streaming was requested. -/
def resp5c : BackendResp :=
  { ok := false, status := 404, contentType := none, chunks := [strL "nf"] }

/-- A failed upstream response observed in blocking mode. -/
def resp5b : BackendResp :=
  { ok := false, status := 500, contentType := some (strL "application/json"),
    chunks := [strL "bad"] }

/-- A successful blocking JSON response whose `data.total_tokens` is the
falsy number `0`. -/
def resp6c : BackendResp :=
  { ok := true, status := 200, contentType := some (strL "application/json"),
    chunks := [strL "\x7b\"data\":\x7b\"outputs\":\x7b\"answer\":\"hi\"\x7d,\"total_tokens\":0\x7d\x7d"] }

/-- The parsed body of `resp6c`. -/
def json6c : Json :=
  Json.obj [(strL "data", Json.obj
    [(strL "outputs", Json.obj [(strL "answer", Json.str (strL "hi"))]),
     (strL "total_tokens", Json.num 0)])]

/-- A successful blocking JSON response carrying the claim's example body. -/
def resp6w : BackendResp :=
  { ok := true, status := 200, contentType := some (strL "application/json"),
    chunks := [strL "\x7b\"data\":\x7b\"outputs\":\x7b\"answer\":\"hi\"\x7d,\"total_tokens\":42\x7d\x7d"] }

/-- The parsed body of `resp6w`. -/
def json6w : Json :=
  Json.obj [(strL "data", Json.obj
    [(strL "outputs", Json.obj [(strL "answer", Json.str (strL "hi"))]),
     (strL "total_tokens", Json.num 42)])]

/-! General lemmas about the embedded operations. -/

theorem lookupInp_upsertInp_self (m : Inputs) (k : Str) (v : InputVal) :
    lookupInp (upsertInp m k v) k = some v := by
  induction m with
  | nil => simp [upsertInp, lookupInp]
  | cons kv rest ih =>
    obtain ⟨k0, v0⟩ := kv
    by_cases h : k0 = k
    · simp [upsertInp, lookupInp, h]
    · simp [upsertInp, lookupInp, h, ih]

theorem lookupInp_upsertInp_ne (m : Inputs) (k kp : Str) (v : InputVal)
    (h : kp ≠ k) : lookupInp (upsertInp m kp v) k = lookupInp m k := by
  induction m with
  | nil => simp [upsertInp, lookupInp, h]
  | cons kv rest ih =>
    obtain ⟨k0, v0⟩ := kv
    by_cases h0 : k0 = kp
    · subst h0
      simp [upsertInp, lookupInp, h]
    · simp [upsertInp, lookupInp, h0, ih]

theorem isPrefixL_append (p t : Str) : isPrefixL p (p ++ t) = true := by
  induction p with
  | nil => simp [isPrefixL]
  | cons c cs ih => simp [isPrefixL, ih]

theorem isPrefixL_eq_append (p s : Str) (h : isPrefixL p s = true) :
    s = p ++ s.drop p.length := by
  induction p generalizing s with
  | nil => simp
  | cons c cs ih =>
    match s with
    | [] => simp [isPrefixL] at h
    | d :: s1 =>
      simp only [isPrefixL, Bool.and_eq_true, beq_iff_eq] at h
      obtain ⟨rfl, h2⟩ := h
      simpa using ih s1 h2

/-- C2 (amended): for every starting `inputs`, configuration and trimmed
pair (systemPrompt, userQuery): when `SYSTEM_INPUT_VARIABLE` is set (truthy)
and distinct from the effective input variable and the system prompt is
non-empty, `inputs[SYSTEM_INPUT_VARIABLE] = systemPrompt` and
`inputs[inputVariable] = userQuery`; when `SYSTEM_INPUT_VARIABLE` is unset
and the system prompt is non-empty, `inputs[inputVariable]` is the system
prompt, exactly two newlines, then the user query; when the system prompt is
empty, `inputs[inputVariable] = userQuery`. -/
theorem C2_input_mapping (cfg : Config) (inputs0 : Inputs) (sp uq : Str) :
    (optTruthy cfg.SYSTEM_INPUT_VARIABLE = true → sp ≠ [] →
      optVal cfg.SYSTEM_INPUT_VARIABLE ≠ effectiveInputVariable cfg →
      lookupInp (applyTextInputs cfg inputs0 sp uq) (optVal cfg.SYSTEM_INPUT_VARIABLE)
          = some (.s sp) ∧
        lookupInp (applyTextInputs cfg inputs0 sp uq) (effectiveInputVariable cfg)
          = some (.s uq)) ∧
    (optTruthy cfg.SYSTEM_INPUT_VARIABLE = false → sp ≠ [] →
      lookupInp (applyTextInputs cfg inputs0 sp uq) (effectiveInputVariable cfg)
        = some (.s (sp ++ strL "\n\n" ++ uq))) ∧
    (sp = [] →
      lookupInp (applyTextInputs cfg inputs0 sp uq) (effectiveInputVariable cfg)
        = some (.s uq)) := by
  refine ⟨?_, ?_, ?_⟩
  · intro hsiv hsp hne
    have hne2 : sp.isEmpty = false := by simpa using hsp
    constructor
    · simp only [applyTextInputs, effectiveInputVariable] at hne ⊢
      rw [if_neg (by simp [hsiv]), if_pos (by simp [hsiv, hne2])]
      rw [lookupInp_upsertInp_ne _ _ _ _ (fun h => hne h.symm)]
      exact lookupInp_upsertInp_self _ _ _
    · simp only [applyTextInputs, effectiveInputVariable] at hne ⊢
      rw [if_neg (by simp [hsiv]), if_pos (by simp [hsiv, hne2])]
      exact lookupInp_upsertInp_self _ _ _
  · intro hsiv hsp
    have hne2 : sp.isEmpty = false := by simpa using hsp
    simp only [applyTextInputs, effectiveInputVariable]
    rw [if_pos (by simp [hsiv, hne2]), if_neg (by simp [hsiv])]
    exact lookupInp_upsertInp_self _ _ _
  · intro hsp
    subst hsp
    simp only [applyTextInputs, effectiveInputVariable]
    rw [if_neg (by simp), if_neg (by simp)]
    exact lookupInp_upsertInp_self _ _ _

/-- Witness for C2: with `SYSTEM_INPUT_VARIABLE = "sys"`, a non-empty system
prompt lands in `inputs["sys"]` and the user query in the default
`inputs["text_input"]`. -/
theorem C2_witness :
    lookupInp (applyTextInputs cfgSys [] (strL "be brief") (strL "hi")) (strL "sys")
        = some (.s (strL "be brief")) ∧
      lookupInp (applyTextInputs cfgSys [] (strL "be brief") (strL "hi")) (strL "text_input")
        = some (.s (strL "hi")) :=
  (C2_input_mapping cfgSys [] (strL "be brief") (strL "hi")).1 rfl
    (by decide) (by decide)

/-- Counterexample to C2 as stated: when `SYSTEM_INPUT_VARIABLE` equals the
effective input variable (`"text_input"`), the later assignment of the user
query overwrites the system prompt, so `inputs[SYSTEM_INPUT_VARIABLE]` is
the user query `"b"`, not the system prompt `"a"` the claim requires. -/
theorem C2_counterexample :
    lookupInp (applyTextInputs cfgCollide [] (strL "a") (strL "b")) (strL "text_input")
        = some (.s (strL "b")) ∧
      InputVal.s (strL "b") ≠ InputVal.s (strL "a") := by
  constructor
  · rfl
  · intro h
    injection h with h2
    exact absurd h2 (by decide)

theorem dataUriMatchAux_sound (cs : Str) :
    ∀ m p, dataUriMatchAux cs = some (m, p) →
      cs = m ++ sepB64 ++ p ∧ cleanStr m = true ∧ p ≠ [] ∧ cleanStr p = true := by
  induction cs with
  | nil => intro m p h; simp [dataUriMatchAux] at h
  | cons c rest ih =>
    intro m p h
    rw [dataUriMatchAux] at h
    split at h
    · next r heq =>
      simp only [Option.some.injEq] at h
      subst h
      by_cases hok : lineOk c = true
      · rw [if_pos hok] at heq
        rw [Option.map_eq_some'] at heq
        obtain ⟨⟨m0, p0⟩, haux, hf⟩ := heq
        obtain ⟨rfl, rfl⟩ : c :: m0 = m ∧ p0 = p := by
          simpa [Prod.ext_iff] using hf
        obtain ⟨heq2, hcm, hpne, hcp⟩ := ih m0 p0 haux
        refine ⟨by simp [heq2], ?_, hpne, hcp⟩
        simp only [cleanStr, List.all_cons, Bool.and_eq_true]
        exact ⟨hok, by simpa [cleanStr] using hcm⟩
      · rw [if_neg hok] at heq
        exact absurd heq (by simp)
    · next heq =>
      split_ifs at h with hpre hcond
      · simp only [Option.some.injEq, Prod.mk.injEq] at h
        obtain ⟨rfl, rfl⟩ := h
        have h8 : sepB64.length = 8 := rfl
        refine ⟨?_, rfl, hcond.1, hcond.2⟩
        have h2 := isPrefixL_eq_append sepB64 (c :: rest) hpre
        simpa [h8] using h2

theorem dataUriMatchAux_complete (m : Str) :
    ∀ p, p ≠ [] → cleanStr m = true → cleanStr p = true →
      ∃ mp, dataUriMatchAux (m ++ sepB64 ++ p) = some mp := by
  induction m with
  | nil =>
    intro p hp hcm hcp
    match h0 : sepB64 ++ p with
    | [] => exact absurd h0 (by simp [sepB64, strL])
    | c :: rest =>
      rw [dataUriMatchAux]
      match haux : (if lineOk c then
          (dataUriMatchAux rest).map (fun mp => (c :: mp.1, mp.2)) else none) with
      | some r => exact ⟨r, by rw [haux]⟩
      | none =>
        rw [haux]
        have hpre : isPrefixL sepB64 (c :: rest) = true := by
          rw [← h0]; exact isPrefixL_append sepB64 p
        have hdrop : (c :: rest).drop 8 = p := by
          rw [← h0]
          have h8 : (8 : Nat) = sepB64.length := rfl
          rw [h8, List.drop_left]
        rw [if_pos hpre, if_pos (by rw [hdrop]; exact ⟨hp, hcp⟩)]
        exact ⟨([], (c :: rest).drop 8), rfl⟩
  | cons c m1 ih =>
    intro p hp hcm hcp
    have hcons : cleanStr (c :: m1) = true := hcm
    simp only [cleanStr, List.all_cons, Bool.and_eq_true] at hcons
    obtain ⟨hok, hcm1⟩ := hcons
    obtain ⟨⟨m2, p2⟩, haux⟩ := ih p hp hcm1 hcp
    refine ⟨(c :: m2, p2), ?_⟩
    have hshape : c :: m1 ++ sepB64 ++ p = c :: (m1 ++ sepB64 ++ p) := by simp
    rw [hshape, dataUriMatchAux, if_pos hok, haux]
    rfl

theorem matchDataUri_some_shape (s : Str) :
    ∀ mp, matchDataUri s = some mp → dataUriShape s := by
  intro ⟨m, p⟩ h
  rw [matchDataUri] at h
  split_ifs at h with hpre
  · match haux : dataUriMatchAux (s.drop 5) with
    | none => rw [haux] at h; exact absurd h (by simp)
    | some (m0, p0) =>
      rw [haux] at h
      have h2 : (if m0 = [] then none else some (m0, p0)) = some (m, p) := h
      split_ifs at h2 with hm0
      obtain ⟨heq, hcm, hpne, hcp⟩ := dataUriMatchAux_sound (s.drop 5) m0 p0 haux
      simp only [Option.some.injEq, Prod.mk.injEq] at h2
      obtain ⟨rfl, rfl⟩ := h2
      refine ⟨m0, p0, ?_, hm0, hpne, hcm, hcp⟩
      have hs := isPrefixL_eq_append (strL "data:") s hpre
      have h5 : (strL "data:").length = 5 := rfl
      rw [h5] at hs
      rw [hs, heq]
      simp

theorem shape_matchDataUri_some (s : Str) (h : dataUriShape s) :
    ∃ mp, matchDataUri s = some mp := by
  obtain ⟨m, p, rfl, hm, hp, hcm, hcp⟩ := h
  have hpre : isPrefixL (strL "data:") (strL "data:" ++ m ++ sepB64 ++ p) = true := by
    have : strL "data:" ++ m ++ sepB64 ++ p = strL "data:" ++ (m ++ sepB64 ++ p) := by simp
    rw [this]; exact isPrefixL_append _ _
  have hdrop : (strL "data:" ++ m ++ sepB64 ++ p).drop 5 = m ++ sepB64 ++ p := by
    have : strL "data:" ++ m ++ sepB64 ++ p = strL "data:" ++ (m ++ sepB64 ++ p) := by simp
    rw [this]
    have h5 : (5 : Nat) = (strL "data:").length := rfl
    rw [h5, List.drop_left]
  obtain ⟨c, m1, rfl⟩ : ∃ c m1, m = c :: m1 := by
    cases m with
    | nil => exact absurd rfl hm
    | cons c m1 => exact ⟨c, m1, rfl⟩
  simp only [cleanStr, List.all_cons, Bool.and_eq_true] at hcm
  obtain ⟨hok, hcm1⟩ := hcm
  obtain ⟨⟨m2, p2⟩, haux⟩ := dataUriMatchAux_complete m1 p hp hcm1 hcp
  rw [matchDataUri, if_pos hpre, hdrop]
  have hshape : c :: m1 ++ sepB64 ++ p = c :: (m1 ++ sepB64 ++ p) := by simp
  rw [hshape, dataUriMatchAux, if_pos hok, haux]
  exact ⟨(c :: m2, p2), by simp⟩

/-- C7: the uploader throws its invalid-input error without making any HTTP
call exactly when the input does not match the `data:<mime>;base64,<payload>`
shape; on a match, the mime alias `image/jpg` is normalized to `image/jpeg`
before use and the uploaded filename is `file.<ext>` where `<ext>` is the
MIME subtype of the normalized content type. -/
theorem C7_uploader_contract (oracle : UploadOracle) (cfg : Config) (userId : Json)
    (s : Str) :
    (((∃ e, (uploadFileToDify oracle s cfg userId).1 = .error e) ∧
        (uploadFileToDify oracle s cfg userId).2 = []) ↔ ¬ dataUriShape s) ∧
    (∀ m p, matchDataUri s = some (m, p) →
      ∃ form, (uploadFileToDify oracle s cfg userId).2 = [form] ∧
        form.contentType = (if m = strL "image/jpg" then strL "image/jpeg" else m) ∧
        form.filename = strL "file."
          ++ mimeSub (if m = strL "image/jpg" then strL "image/jpeg" else m) ∧
        form.payload = p ∧ form.user = userId) := by
  constructor
  · match hm : matchDataUri s with
    | none =>
      simp only [uploadFileToDify, hm]
      constructor
      · intro _ hshape
        obtain ⟨mp, hmp⟩ := shape_matchDataUri_some s hshape
        rw [hm] at hmp
        exact absurd hmp (by simp)
      · intro _
        exact ⟨⟨strL "Invalid base64 data", rfl⟩, trivial⟩
    | some (m, p) =>
      have hshape := matchDataUri_some_shape s (m, p) hm
      have hcalls : (uploadFileToDify oracle s cfg userId).2 = [uploadFormFor userId m p] := by
        simp [uploadFileToDify, hm]
      constructor
      · intro hcontr
        rw [hcalls] at hcontr
        exact absurd hcontr.2 (by simp)
      · intro hns
        exact absurd hshape hns
  · intro m p hm
    have hcalls : (uploadFileToDify oracle s cfg userId).2 = [uploadFormFor userId m p] := by
      simp [uploadFileToDify, hm]
    exact ⟨uploadFormFor userId m p, hcalls, rfl, rfl, rfl, rfl⟩

/-- Witness for C7: on the concrete data URI `data:image/jpg;base64,abc`
the single form sent carries content type `image/jpeg` and filename
`file.jpeg`, and the shape equivalence is exercised at this input. -/
theorem C7_witness :
    ∃ form, (uploadFileToDify okOracle (strL "data:image/jpg;base64,abc") {} Json.undef).2
        = [form] ∧
      form.contentType = strL "image/jpeg" ∧
      form.filename = strL "file.jpeg" ∧
      form.payload = strL "abc" ∧ form.user = Json.undef := by
  obtain ⟨form, h1, h2, h3, h4, h5⟩ :=
    (C7_uploader_contract okOracle {} Json.undef (strL "data:image/jpg;base64,abc")).2
      (strL "image/jpg") (strL "abc") rfl
  exact ⟨form, h1, by simpa using h2, by simpa using h3, h4, h5⟩

theorem foldlM_except_inv {α β : Type} (P : β → Prop) (f : β → α → Except Str β)
    (l : List α) (hstep : ∀ b a bp, P b → f b a = .ok bp → P bp) :
    ∀ b bp, P b → l.foldlM f b = .ok bp → P bp := by
  induction l with
  | nil =>
    intro b bp hP h
    simp only [List.foldlM_nil] at h
    cases h
    exact hP
  | cons a l ih =>
    intro b bp hP h
    rw [List.foldlM_cons] at h
    cases hfa : f b a with
    | error e => rw [hfa] at h; exact absurd h (by simp [Bind.bind, Except.bind])
    | ok b1 =>
      rw [hfa] at h
      simp only [Bind.bind, Except.bind] at h
      exact ih b1 bp (hstep b a b1 hP hfa) h

theorem uploadFileToDify_forms_user (oracle : UploadOracle) (cfg : Config)
    (userId : Json) (s : Str) :
    ∀ f ∈ (uploadFileToDify oracle s cfg userId).2, f.user = userId := by
  rw [uploadFileToDify]
  cases hm : matchDataUri s with
  | none => simp
  | some mp =>
    obtain ⟨m, p⟩ := mp
    simp only [List.mem_singleton]
    intro f hf
    subst hf
    rfl

theorem scanPart_user (fe ft : Str → Str) (oracle : UploadOracle) (cfg : Config)
    (userId : Json) (acc acc2 : ScanAcc) (content : Json)
    (hP : (∀ c ∈ acc.calls, c.2 = userId) ∧ (∀ f ∈ acc.forms, f.user = userId))
    (h : scanPart fe ft oracle cfg userId acc content = .ok acc2) :
    (∀ c ∈ acc2.calls, c.2 = userId) ∧ (∀ f ∈ acc2.forms, f.user = userId) := by
  rw [scanPart] at h
  split_ifs at h with hguard
  · revert h
    match (content.get (strL "image_url")).get (strL "url") with
    | .str imageUrl =>
      intro h
      simp only at h
      split_ifs at h with hdata
      · revert h
        match hup : uploadFileToDify oracle imageUrl cfg userId with
        | (.error e, _) => intro h; exact absurd h (by simp)
        | (.ok fileId, fms) =>
          intro h
          cases h
          have hforms : ∀ f ∈ fms, f.user = userId := by
            have h2 := uploadFileToDify_forms_user oracle cfg userId imageUrl
            rw [hup] at h2
            exact h2
          constructor
          · intro c hc
            simp only [List.mem_append, List.mem_singleton] at hc
            rcases hc with hc | rfl
            · exact hP.1 c hc
            · rfl
          · intro f hf
            simp only [List.mem_append] at hf
            rcases hf with hf | hf
            · exact hP.2 f hf
            · exact hforms f hf
      · cases h
        exact hP
    | .undef => intro h; exact absurd h (by simp)
    | .null => intro h; exact absurd h (by simp)
    | .bool b => intro h; exact absurd h (by simp)
    | .num q => intro h; exact absurd h (by simp)
    | .arr xs => intro h; exact absurd h (by simp)
    | .obj fs => intro h; exact absurd h (by simp)
  · cases h
    exact hP

theorem scanMessages_user (fe ft : Str → Str) (oracle : UploadOracle) (cfg : Config)
    (userId : Json) (messages : List Json) (acc : ScanAcc)
    (h : scanMessages fe ft oracle cfg userId messages = .ok acc) :
    (∀ c ∈ acc.calls, c.2 = userId) ∧ (∀ f ∈ acc.forms, f.user = userId) := by
  refine foldlM_except_inv
    (fun a => (∀ c ∈ a.calls, c.2 = userId) ∧ (∀ f ∈ a.forms, f.user = userId))
    (scanMessage fe ft oracle cfg userId) messages ?_ ⟨[], [], []⟩ acc (by simp) h
  intro b m bp hPb hstep
  rw [scanMessage] at hstep
  cases hc : m.jsIndex (strL "content") with
  | error e =>
    rw [hc] at hstep
    exact absurd hstep (by simp [Bind.bind, Except.bind])
  | ok content =>
    rw [hc] at hstep
    simp only [Bind.bind, Except.bind] at hstep
    revert hstep
    match content with
    | .arr parts =>
      intro hstep
      exact foldlM_except_inv _ (scanPart fe ft oracle cfg userId) parts
        (fun b2 a2 bp2 hPb2 h2 => scanPart_user fe ft oracle cfg userId b2 bp2 a2 hPb2 h2)
        b bp hPb hstep
    | .undef => intro hstep; cases hstep; exact hPb
    | .null => intro hstep; cases hstep; exact hPb
    | .bool b2 => intro hstep; cases hstep; exact hPb
    | .num q => intro hstep; cases hstep; exact hPb
    | .str s => intro hstep; cases hstep; exact hPb
    | .obj fs => intro hstep; cases hstep; exact hPb

/-- C9: the `files` field of the JSON body sent to `/workflows/run` is the
empty array for every request that reaches the backend call, including
requests whose messages contain image parts; file references travel only
inside `inputs["file_input"]`. -/
theorem C9_files_always_empty (fe ft : Str → Str) (oracle : UploadOracle)
    (cfg : Config) (data : Json) (body : WorkflowRequestBody) (acc : ScanAcc)
    (h : handleRequestPrep fe ft oracle cfg data = .ok (body, acc)) :
    body.files = [] := by
  rw [handleRequestPrep] at h
  simp only [Bind.bind, Except.bind, pure, Except.pure] at h
  repeat' split at h
  all_goals cases h
  all_goals rfl

/-- Witness for C9: a concrete request containing both a data-URI image and
a remote image still sends `files = []`. -/
theorem C9_witness :
    ∃ body acc,
      handleRequestPrep (fun _ => strL "png") (fun _ => strL "image") okOracle {}
          (Json.obj
            [(strL "messages", .arr
              [Json.obj
                [(strL "role", .str (strL "user")),
                 (strL "content", .arr
                   [Json.obj
                     [(strL "type", .str (strL "image_url")),
                      (strL "image_url", Json.obj
                        [(strL "url", .str (strL "data:image/png;base64,AA"))])],
                    Json.obj
                     [(strL "type", .str (strL "image_url")),
                      (strL "image_url", Json.obj
                        [(strL "url", .str (strL "https://x/y.png"))])]])]])])
        = .ok (body, acc) ∧ body.files = [] := by
  obtain ⟨body, acc, h⟩ :
      ∃ body acc, handleRequestPrep (fun _ => strL "png") (fun _ => strL "image") okOracle {}
          (Json.obj
            [(strL "messages", .arr
              [Json.obj
                [(strL "role", .str (strL "user")),
                 (strL "content", .arr
                   [Json.obj
                     [(strL "type", .str (strL "image_url")),
                      (strL "image_url", Json.obj
                        [(strL "url", .str (strL "data:image/png;base64,AA"))])],
                    Json.obj
                     [(strL "type", .str (strL "image_url")),
                      (strL "image_url", Json.obj
                        [(strL "url", .str (strL "https://x/y.png"))])]])]])])
        = .ok (body, acc) := ⟨_, _, rfl⟩
  exact ⟨body, acc, h, C9_files_always_empty _ _ _ _ _ body acc h⟩

/-- C10: the user identifier sent to the backend — the `user` field of the
`/workflows/run` body and the `user` field of every multipart upload form
within the same request — is `config.USER` when set (truthy), else the
request body's `user` when truthy, else the literal `"apiuser"`; the same
identifier is used for every upload and for the workflow call. -/
theorem C10_user_identifier (fe ft : Str → Str) (oracle : UploadOracle)
    (cfg : Config) (data : Json) (body : WorkflowRequestBody) (acc : ScanAcc)
    (h : handleRequestPrep fe ft oracle cfg data = .ok (body, acc)) :
    body.user = computeUserId cfg data ∧
    (∀ c ∈ acc.calls, c.2 = computeUserId cfg data) ∧
    (∀ f ∈ acc.forms, f.user = computeUserId cfg data) ∧
    computeUserId cfg data =
      (if optTruthy cfg.USER then Json.str (optVal cfg.USER)
       else if (data.get (strL "user")).truthy = true then data.get (strL "user")
       else Json.str (strL "apiuser")) := by
  have hscan : ∃ messages, scanMessages fe ft oracle cfg (computeUserId cfg data) messages
      = .ok acc ∧ body.user = computeUserId cfg data := by
    rw [handleRequestPrep] at h
    simp only [Bind.bind, Except.bind, pure, Except.pure] at h
    repeat' split at h
    all_goals cases h
    all_goals exact ⟨_, by assumption, rfl⟩
  obtain ⟨messages, hs, hbody⟩ := hscan
  obtain ⟨hcalls, hforms⟩ := scanMessages_user fe ft oracle cfg _ messages acc hs
  exact ⟨hbody, hcalls, hforms, rfl⟩

/-- Witness for C10: with `config.USER` unset and a request that carries
`user: "alice"` plus a data-URI image, the body's `user` and the single
upload form's `user` are both the string `alice`. -/
theorem C10_witness :
    ∃ body acc,
      handleRequestPrep (fun _ => strL "png") (fun _ => strL "image") okOracle {}
          (Json.obj
            [(strL "user", .str (strL "alice")),
             (strL "messages", .arr
              [Json.obj
                [(strL "role", .str (strL "user")),
                 (strL "content", .arr
                   [Json.obj
                     [(strL "type", .str (strL "image_url")),
                      (strL "image_url", Json.obj
                        [(strL "url", .str (strL "data:image/png;base64,AA"))])]])]])])
        = .ok (body, acc) ∧
      body.user = Json.str (strL "alice") ∧
      (∀ f ∈ acc.forms, f.user = Json.str (strL "alice")) := by
  obtain ⟨body, acc, h⟩ :
      ∃ body acc, handleRequestPrep (fun _ => strL "png") (fun _ => strL "image") okOracle {}
          (Json.obj
            [(strL "user", .str (strL "alice")),
             (strL "messages", .arr
              [Json.obj
                [(strL "role", .str (strL "user")),
                 (strL "content", .arr
                   [Json.obj
                     [(strL "type", .str (strL "image_url")),
                      (strL "image_url", Json.obj
                        [(strL "url", .str (strL "data:image/png;base64,AA"))])]])]])])
        = .ok (body, acc) := ⟨_, _, rfl⟩
  obtain ⟨h1, _, h3, h4⟩ := C10_user_identifier _ _ _ _ _ body acc h
  refine ⟨body, acc, h, ?_, ?_⟩
  · rw [h1, h4]; rfl
  · intro f hf
    rw [h3 f hf, h4]; rfl

theorem scanPart_delta (fe ft : Str → Str) (oracle : UploadOracle) (cfg : Config)
    (userId : Json) (acc acc2 : ScanAcc) (content : Json)
    (h : scanPart fe ft oracle cfg userId acc content = .ok acc2) :
    (partImageUrl content = none → acc2 = acc) ∧
    (∀ u, partImageUrl content = some u →
      ∃ fi, expectedFileInput fe ft oracle cfg userId u = some fi ∧
        acc2.inputs = pushFileInput acc.inputs fi ∧
        acc2.calls = acc.calls
          ++ (if isPrefixL (strL "data:") u then [(u, userId)] else [])) := by
  rw [scanPart] at h
  split_ifs at h with hguard
  · split at h
    · next imageUrl heq =>
      have hne : imageUrl.isEmpty = false := by
        have h3 := hguard.2.2
        rw [heq] at h3
        simpa [Json.truthy] using h3
      have hpart : partImageUrl content = some imageUrl := by
        rw [partImageUrl, if_pos ⟨hguard.1, hguard.2.1⟩, heq]
        simp [hne]
      refine ⟨by simp [hpart], ?_⟩
      intro u hu
      rw [hpart, Option.some.injEq] at hu
      subst hu
      by_cases hdata : isPrefixL (strL "data:") imageUrl = true
      · rw [if_pos hdata] at h
        simp only at h
        split at h
        · exact absurd h (by simp)
        · next fileId fms heq2 =>
          cases h
          refine ⟨_, ?_, rfl, by rw [if_pos hdata]⟩
          rw [expectedFileInput, if_pos hdata, heq2]
      · rw [if_neg hdata] at h
        cases h
        refine ⟨_, ?_, rfl, ?_⟩
        · rw [expectedFileInput, if_neg hdata]
        · rw [if_neg hdata]
          show acc.calls = acc.calls ++ []
          simp
    · next hwild =>
      exact absurd h (by simp)
  · cases h
    have hpart : partImageUrl content = none := by
      rw [partImageUrl]
      by_cases h12 : jsStrEq (content.get (strL "type")) (strL "image_url") = true
          ∧ (content.get (strL "image_url")).truthy = true
      · rw [if_pos h12]
        have hC : ((content.get (strL "image_url")).get (strL "url")).truthy = false := by
          cases hT : ((content.get (strL "image_url")).get (strL "url")).truthy
          · rfl
          · exact absurd ⟨h12.1, h12.2, hT⟩ hguard
        revert hC
        match (content.get (strL "image_url")).get (strL "url") with
        | .str u =>
          intro hC
          have hEmpty : u.isEmpty = true := by
            cases hh : u.isEmpty
            · rw [Json.truthy, hh] at hC
              exact absurd hC (by simp)
            · rfl
          simp [hEmpty]
        | .undef => intro _; rfl
        | .null => intro _; rfl
        | .bool b => intro _; rfl
        | .num q => intro _; rfl
        | .arr xs => intro _; rfl
        | .obj fs => intro _; rfl
      · rw [if_neg h12]
    exact ⟨fun _ => rfl, fun u hu => absurd (hpart ▸ hu) (by simp)⟩

theorem pushFileInput_nil (fi : FileInput) :
    pushFileInput [] fi = [(fileInputKey, .files [fi])] := by
  simp [pushFileInput, lookupInp, inputValTruthy, upsertInp]

theorem pushFileInput_files (fs : List FileInput) (fi : FileInput) :
    pushFileInput [(fileInputKey, .files fs)] fi
      = [(fileInputKey, .files (fs ++ [fi]))] := by
  simp [pushFileInput, lookupInp, inputValTruthy, upsertInp]

theorem foldl_pushFileInput_files (fis : List FileInput) :
    ∀ fs, fis.foldl pushFileInput [(fileInputKey, .files fs)]
      = [(fileInputKey, .files (fs ++ fis))] := by
  induction fis with
  | nil => intro fs; simp
  | cons fi fis ih =>
    intro fs
    rw [List.foldl_cons, pushFileInput_files, ih]
    simp

theorem foldl_pushFileInput_nil (fis : List FileInput) :
    fis.foldl pushFileInput []
      = (if fis.isEmpty then [] else [(fileInputKey, .files fis)]) := by
  cases fis with
  | nil => rfl
  | cons fi fis =>
    rw [List.foldl_cons, pushFileInput_nil, foldl_pushFileInput_files]
    simp

theorem mapM_option_append {α β : Type} (f : α → Option β) :
    ∀ (l1 l2 : List α) (b1 b2 : List β), l1.mapM f = some b1 → l2.mapM f = some b2 →
      (l1 ++ l2).mapM f = some (b1 ++ b2) := by
  intro l1
  induction l1 with
  | nil =>
    intro l2 b1 b2 h1 h2
    simp only [List.mapM_nil, pure, Option.some.injEq] at h1
    subst h1
    simpa using h2
  | cons a l1 ih =>
    intro l2 b1 b2 h1 h2
    rw [List.mapM_cons] at h1
    cases hfa : f a with
    | none => rw [hfa] at h1; exact absurd h1 (by simp [Bind.bind])
    | some b =>
      rw [hfa] at h1
      simp only [Bind.bind, Option.bind] at h1
      cases hl1 : l1.mapM f with
      | none => rw [hl1] at h1; exact absurd h1 (by simp)
      | some bs =>
        rw [hl1] at h1
        simp only [pure, Option.some.injEq] at h1
        subst h1
        rw [List.cons_append, List.mapM_cons, hfa]
        simp only [Bind.bind, Option.bind]
        rw [ih l2 bs b2 hl1 h2]
        simp

theorem scanParts_delta (fe ft : Str → Str) (oracle : UploadOracle) (cfg : Config)
    (userId : Json) (parts : List Json) :
    ∀ acc acc2, parts.foldlM (scanPart fe ft oracle cfg userId) acc = .ok acc2 →
      ∃ fis, (parts.filterMap partImageUrl).mapM
          (expectedFileInput fe ft oracle cfg userId) = some fis ∧
        acc2.inputs = fis.foldl pushFileInput acc.inputs ∧
        acc2.calls = acc.calls ++ ((parts.filterMap partImageUrl).filter
          (fun u => isPrefixL (strL "data:") u)).map (fun u => (u, userId)) := by
  induction parts with
  | nil =>
    intro acc acc2 h
    simp only [List.foldlM_nil] at h
    cases h
    exact ⟨[], rfl, rfl, by simp⟩
  | cons p parts ih =>
    intro acc acc2 h
    rw [List.foldlM_cons] at h
    cases hstep : scanPart fe ft oracle cfg userId acc p with
    | error e => rw [hstep] at h; exact absurd h (by simp [Bind.bind, Except.bind])
    | ok acc1 =>
      rw [hstep] at h
      simp only [Bind.bind, Except.bind] at h
      obtain ⟨hnone, hsome⟩ := scanPart_delta fe ft oracle cfg userId acc acc1 p hstep
      obtain ⟨fis1, hmap1, hin1, hca1⟩ := ih acc1 acc2 h
      cases hcls : partImageUrl p with
      | none =>
        rw [hnone hcls] at hin1 hca1
        exact ⟨fis1, by simpa [List.filterMap_cons, hcls] using hmap1,
          by simpa [List.filterMap_cons, hcls] using hin1,
          by simpa [List.filterMap_cons, hcls] using hca1⟩
      | some u =>
        obtain ⟨fi, hfi, hin0, hca0⟩ := hsome u hcls
        refine ⟨fi :: fis1, ?_, ?_, ?_⟩
        · rw [List.filterMap_cons, hcls, List.mapM_cons, hfi]
          simp only [Bind.bind, Option.bind, hmap1, pure]
        · rw [List.foldl_cons, ← hin0, hin1]
        · rw [List.filterMap_cons, hcls, hca1, hca0]
          by_cases hdata : isPrefixL (strL "data:") u = true
          · simp [hdata, List.filter_cons]
          · simp [hdata, List.filter_cons]

theorem jsIndex_ok_get (m : Json) (k : Str) (v : Json) (h : m.jsIndex k = .ok v) :
    m.get k = v := by
  cases m <;> simp [Json.jsIndex] at h <;> simp [Json.get] at h ⊢ <;> exact h

theorem scanMessage_delta (fe ft : Str → Str) (oracle : UploadOracle) (cfg : Config)
    (userId : Json) (m : Json) (acc acc2 : ScanAcc)
    (h : scanMessage fe ft oracle cfg userId acc m = .ok acc2) :
    ∃ fis, (msgImageUrls m).mapM (expectedFileInput fe ft oracle cfg userId) = some fis ∧
      acc2.inputs = fis.foldl pushFileInput acc.inputs ∧
      acc2.calls = acc.calls ++ ((msgImageUrls m).filter
        (fun u => isPrefixL (strL "data:") u)).map (fun u => (u, userId)) := by
  rw [scanMessage] at h
  simp only [Bind.bind, Except.bind] at h
  cases hc : m.jsIndex (strL "content") with
  | error e => rw [hc] at h; exact absurd h (by simp)
  | ok content =>
    rw [hc] at h
    have hget : m.get (strL "content") = content := jsIndex_ok_get m _ content hc
    revert h
    match content with
    | .arr parts =>
      intro h
      have hurls : msgImageUrls m = parts.filterMap partImageUrl := by
        rw [msgImageUrls, hget]
      rw [hurls]
      exact scanParts_delta fe ft oracle cfg userId parts acc acc2 h
    | .undef =>
      intro h; cases h
      exact ⟨[], by rw [msgImageUrls, hget]; rfl, rfl, by simp [msgImageUrls, hget]⟩
    | .null =>
      intro h; cases h
      exact ⟨[], by rw [msgImageUrls, hget]; rfl, rfl, by simp [msgImageUrls, hget]⟩
    | .bool b =>
      intro h; cases h
      exact ⟨[], by rw [msgImageUrls, hget]; rfl, rfl, by simp [msgImageUrls, hget]⟩
    | .num q =>
      intro h; cases h
      exact ⟨[], by rw [msgImageUrls, hget]; rfl, rfl, by simp [msgImageUrls, hget]⟩
    | .str s =>
      intro h; cases h
      exact ⟨[], by rw [msgImageUrls, hget]; rfl, rfl, by simp [msgImageUrls, hget]⟩
    | .obj fs =>
      intro h; cases h
      exact ⟨[], by rw [msgImageUrls, hget]; rfl, rfl, by simp [msgImageUrls, hget]⟩

theorem scanMessages_delta (fe ft : Str → Str) (oracle : UploadOracle) (cfg : Config)
    (userId : Json) (ms : List Json) :
    ∀ acc acc2, ms.foldlM (scanMessage fe ft oracle cfg userId) acc = .ok acc2 →
      ∃ fis, (messagesImageUrls ms).mapM
          (expectedFileInput fe ft oracle cfg userId) = some fis ∧
        acc2.inputs = fis.foldl pushFileInput acc.inputs ∧
        acc2.calls = acc.calls ++ ((messagesImageUrls ms).filter
          (fun u => isPrefixL (strL "data:") u)).map (fun u => (u, userId)) := by
  induction ms with
  | nil =>
    intro acc acc2 h
    simp only [List.foldlM_nil] at h
    cases h
    exact ⟨[], rfl, rfl, by simp [messagesImageUrls]⟩
  | cons m ms ih =>
    intro acc acc2 h
    rw [List.foldlM_cons] at h
    cases hstep : scanMessage fe ft oracle cfg userId acc m with
    | error e => rw [hstep] at h; exact absurd h (by simp [Bind.bind, Except.bind])
    | ok acc1 =>
      rw [hstep] at h
      simp only [Bind.bind, Except.bind] at h
      obtain ⟨fisM, hmapM, hinM, hcaM⟩ :=
        scanMessage_delta fe ft oracle cfg userId m acc acc1 hstep
      obtain ⟨fisR, hmapR, hinR, hcaR⟩ := ih acc1 acc2 h
      have hurls : messagesImageUrls (m :: ms) = msgImageUrls m ++ messagesImageUrls ms := by
        simp [messagesImageUrls]
      refine ⟨fisM ++ fisR, ?_, ?_, ?_⟩
      · rw [hurls]
        exact mapM_option_append _ _ _ _ _ hmapM hmapR
      · rw [List.foldl_append, ← hinM, hinR]
      · rw [hurls, List.filter_append, List.map_append, hcaR, hcaM]
        simp

theorem map_fst_pair {α β : Type} (l : List α) (b : β) :
    (l.map (fun u => (u, b))).map Prod.fst = l := by
  induction l with
  | nil => rfl
  | cons a l ih => simp [ih]

/-- C4: for every message whose content is an array and every part with
`type "image_url"` carrying a url, when the scan completes: the uploader is
invoked exactly once per `data:` URL occurrence (in source order, and never
for other URLs), and `inputs["file_input"]` is an array holding, in source
message order, a `local_file` `FileInput` with the returned upload id for
each `data:` URL and a `remote_url` `FileInput` for every other URL. -/
theorem C4_image_scan (fe ft : Str → Str) (oracle : UploadOracle) (cfg : Config)
    (userId : Json) (ms : List Json) (acc : ScanAcc)
    (h : scanMessages fe ft oracle cfg userId ms = .ok acc) :
    acc.calls.map Prod.fst
        = (messagesImageUrls ms).filter (fun u => isPrefixL (strL "data:") u) ∧
    ∃ fis, (messagesImageUrls ms).mapM
        (expectedFileInput fe ft oracle cfg userId) = some fis ∧
      acc.inputs = (if fis.isEmpty then [] else [(fileInputKey, .files fis)]) := by
  obtain ⟨fis, hmap, hin, hca⟩ :=
    scanMessages_delta fe ft oracle cfg userId ms ⟨[], [], []⟩ acc h
  constructor
  · rw [hca]
    simp only [List.nil_append]
    exact map_fst_pair _ _
  · exact ⟨fis, hmap, by rw [hin]; exact foldl_pushFileInput_nil fis⟩

/-- Witness for C4: a request with one `data:` image and one remote image
produces exactly one uploader call (for the `data:` URL) and a two-element
`file_input` array in source order: first the `local_file` entry with the
returned id, then the `remote_url` entry. -/
theorem C4_witness :
    ∃ acc,
      scanMessages (fun _ => strL "png") (fun _ => strL "image") okOracle {} Json.undef
          [Json.obj
            [(strL "role", .str (strL "user")),
             (strL "content", .arr
               [Json.obj
                 [(strL "type", .str (strL "image_url")),
                  (strL "image_url", Json.obj
                    [(strL "url", .str (strL "data:image/png;base64,AA"))])],
                Json.obj
                 [(strL "type", .str (strL "image_url")),
                  (strL "image_url", Json.obj
                    [(strL "url", .str (strL "https://x/y.png"))])]])]]
        = .ok acc ∧
      acc.calls.map Prod.fst = [strL "data:image/png;base64,AA"] ∧
      acc.inputs = [(fileInputKey, .files
        [{ transfer_method := strL "local_file",
           upload_file_id := some (Json.str (strL "f1")), type := strL "image" },
         { transfer_method := strL "remote_url",
           url := some (strL "https://x/y.png"), type := strL "image" }])] := by
  obtain ⟨acc, h⟩ :
      ∃ acc, scanMessages (fun _ => strL "png") (fun _ => strL "image") okOracle {} Json.undef
          [Json.obj
            [(strL "role", .str (strL "user")),
             (strL "content", .arr
               [Json.obj
                 [(strL "type", .str (strL "image_url")),
                  (strL "image_url", Json.obj
                    [(strL "url", .str (strL "data:image/png;base64,AA"))])],
                Json.obj
                 [(strL "type", .str (strL "image_url")),
                  (strL "image_url", Json.obj
                    [(strL "url", .str (strL "https://x/y.png"))])]])]]
        = .ok acc := ⟨_, rfl⟩
  obtain ⟨hcalls, fis, hmap, hin⟩ := C4_image_scan _ _ _ _ _ _ acc h
  have hfis : fis =
      [{ transfer_method := strL "local_file",
         upload_file_id := some (Json.str (strL "f1")), url := none,
         type := strL "image" },
       { transfer_method := strL "remote_url", upload_file_id := none,
         url := some (strL "https://x/y.png"), type := strL "image" }] := by
    rw [show List.mapM (expectedFileInput (fun _ => strL "png") (fun _ => strL "image")
        okOracle {} Json.undef)
        (messagesImageUrls
          [Json.obj
            [(strL "role", .str (strL "user")),
             (strL "content", .arr
               [Json.obj
                 [(strL "type", .str (strL "image_url")),
                  (strL "image_url", Json.obj
                    [(strL "url", .str (strL "data:image/png;base64,AA"))])],
                Json.obj
                 [(strL "type", .str (strL "image_url")),
                  (strL "image_url", Json.obj
                    [(strL "url", .str (strL "https://x/y.png"))])]])]])
      = some
        [{ transfer_method := strL "local_file",
           upload_file_id := some (Json.str (strL "f1")), url := none,
           type := strL "image" },
         { transfer_method := strL "remote_url", upload_file_id := none,
           url := some (strL "https://x/y.png"), type := strL "image" }] from rfl] at hmap
    injection hmap with h2
    exact h2.symm
  refine ⟨acc, h, ?_, ?_⟩
  · rw [hcalls]; rfl
  · rw [hin, hfis]
    rfl

/-- C8: a complete line without the `data:` prefix, with a payload that does
not open a JSON object, or whose payload fails to parse, is skipped: the
streaming state (and hence the client-visible output) is unchanged, no
exception is raised, and processing continues with subsequent lines. -/
theorem C8_bad_lines_skipped (cfg : Config) (model : Json) (now : Nat)
    (st : StreamSt) (rawLine : Str)
    (h : isPrefixL (strL "data:") (jsTrim rawLine) = false ∨
         isPrefixL ['\x7b'] (jsTrim ((jsTrim rawLine).drop 5)) = false ∨
         parseJson (jsTrim ((jsTrim rawLine).drop 5)) = none) :
    processStreamLine cfg model now st rawLine = .ok st := by
  have hev : lineEvent rawLine = none := by
    rw [lineEvent]
    by_cases h1 : isPrefixL (strL "data:") (jsTrim rawLine) = true
    · rw [if_pos h1]
      rcases h with h | h | h
      · rw [h1] at h; exact absurd h (by simp)
      · rw [if_neg (by rw [h]; simp)]
      · by_cases h2 : isPrefixL ['\x7b'] (jsTrim ((jsTrim rawLine).drop 5)) = true
        · rw [if_pos h2]; exact h
        · rw [if_neg h2]
    · rw [if_neg h1]
  rw [processStreamLine, hev]

/-- Witness for C8: the concrete line `data: \x7boops` (brace-opening but
unparseable payload) leaves the initial streaming state untouched. -/
theorem C8_witness :
    processStreamLine {} Json.undef 0 initStreamSt (strL "data: \x7boops")
      = .ok initStreamSt :=
  C8_bad_lines_skipped {} Json.undef 0 initStreamSt (strL "data: \x7boops")
    (Or.inr (Or.inr rfl))

theorem Res.write_not_ended (r : Res) (s : Str) (h : r.ended = false) :
    r.write s = { r with writes := r.writes ++ [s] } := by
  rw [Res.write, h]
  simp

theorem Res.write_ended (r : Res) (s : Str) (h : r.ended = true) : r.write s = r := by
  rw [Res.write, h]
  simp

theorem data_obj_ne_done (fs : List (Str × Json)) (t : Str) :
    strL "data: " ++ Json.render (Json.obj fs) ++ t ≠ doneLine := by
  intro h
  have h1 : strL "data: " ++ Json.render (Json.obj fs) ++ t
      = 'd' :: 'a' :: 't' :: 'a' :: ':' :: ' ' :: '\x7b'
        :: (Json.renderFields true fs ++ ['\x7d'] ++ t) := by
    show strL "data: " ++ ('\x7b' :: (Json.renderFields true fs ++ ['\x7d'])) ++ t = _
    simp only [List.append_assoc, List.cons_append, List.singleton_append]
    rfl
  have h2 : doneLine = 'd' :: 'a' :: 't' :: 'a' :: ':' :: ' ' :: '['
      :: strL "DONE]\n\n" := rfl
  rw [h1, h2] at h
  simp at h

theorem processStreamLine_cases (cfg : Config) (model : Json) (now : Nat)
    (st st2 : StreamSt) (l : Str)
    (hsync : st.res.ended = st.isResponseEnded)
    (h : processStreamLine cfg model now st l = .ok st2) :
    st2.res.ended = st2.isResponseEnded ∧
    (isTerminalLine l = false → st2 = st) ∧
    (isTerminalLine l = true →
      st2.isResponseEnded = true ∧
      (st.isResponseEnded = true → st2.res.writes = st.res.writes) ∧
      (st.isResponseEnded = false →
        ∃ p, st2.res.writes = st.res.writes ++ [p, doneLine] ∧ p ≠ doneLine)) := by
  cases hev : lineEvent l with
  | none =>
    simp only [processStreamLine, hev] at h
    cases h
    refine ⟨hsync, fun _ => rfl, fun hterm => ?_⟩
    rw [isTerminalLine, hev] at hterm
    exact absurd hterm (by simp)
  | some obj =>
    simp only [processStreamLine, hev] at h
    have hterm : isTerminalLine l =
        (match obj.get (strL "event") with
         | .str e => if e = strL "workflow_finished" ∨ e = strL "error" then true else false
         | _ => false) := by
      rw [isTerminalLine, hev]
    match hevt : obj.get (strL "event") with
    | .str e =>
      simp only [dispatchFrame, hevt] at h
      simp only [hevt] at hterm
      by_cases h1 : e = strL "workflow_started"
      · rw [if_pos h1] at h
        cases h
        refine ⟨hsync, fun _ => rfl, fun ht => ?_⟩
        rw [hterm, if_neg (by simp [h1, strL])] at ht
        exact absurd ht (by simp)
      · rw [if_neg h1] at h
        by_cases h2 : e = strL "node_started"
        · rw [if_pos h2] at h
          cases h
          refine ⟨hsync, fun _ => rfl, fun ht => ?_⟩
          rw [hterm, if_neg (by simp [h2, strL])] at ht
          exact absurd ht (by simp)
        · rw [if_neg h2] at h
          by_cases h3 : e = strL "node_finished"
          · rw [if_pos h3] at h
            cases h
            refine ⟨hsync, fun _ => rfl, fun ht => ?_⟩
            rw [hterm, if_neg (by simp [h3, strL])] at ht
            exact absurd ht (by simp)
          · rw [if_neg h3] at h
            by_cases h4 : e = strL "workflow_finished"
            · rw [if_pos h4] at h
              have htermT : isTerminalLine l = true := by
                rw [hterm, if_pos (Or.inl h4)]
              cases houts : (obj.get (strL "data")).jsIndex (strL "outputs") with
              | error err =>
                rw [houts] at h
                simp [Bind.bind, Except.bind] at h
              | ok outputs =>
                rw [houts] at h
                simp only [Bind.bind, Except.bind] at h
                have hres : ∀ result : Json,
                    (if st.isResponseEnded = true then (Except.ok st : Except Str StreamSt)
                     else Except.ok
                       { res := ((st.res.write (strL "data: "
                           ++ Json.render (finishedChunkJson model now
                                (obj.get (strL "created_at")) result)
                           ++ strL "\n\n")).write doneLine).endR,
                         isResponseEnded := true }) = .ok st2 →
                    st2.res.ended = st2.isResponseEnded ∧
                    st2.isResponseEnded = true ∧
                    (st.isResponseEnded = true → st2.res.writes = st.res.writes) ∧
                    (st.isResponseEnded = false →
                      ∃ p, st2.res.writes = st.res.writes ++ [p, doneLine]
                        ∧ p ≠ doneLine) := by
                  intro result hif
                  by_cases hended : st.isResponseEnded = true
                  · rw [if_pos hended] at hif
                    cases hif
                    exact ⟨hsync, hended, fun _ => rfl,
                      fun hf => absurd hended (by simp [hf])⟩
                  · have hend2 : st.isResponseEnded = false := by
                      cases hx : st.isResponseEnded
                      · rfl
                      · exact absurd hx hended
                    rw [if_neg hended] at hif
                    cases hif
                    have hrnotend : st.res.ended = false := by rw [hsync, hend2]
                    rw [Res.write_not_ended st.res _ hrnotend]
                    rw [Res.write_not_ended _ _ (by simp [hrnotend])]
                    refine ⟨rfl, rfl, fun hcontr => absurd hcontr (by simp [hend2]), ?_⟩
                    intro _
                    refine ⟨strL "data: "
                        ++ Json.render (finishedChunkJson model now
                             (obj.get (strL "created_at")) result)
                        ++ strL "\n\n", by simp [Res.endR], ?_⟩
                    rw [finishedChunkJson]
                    exact data_obj_ne_done _ _
                by_cases hov : optTruthy cfg.OUTPUT_VARIABLE = true
                · rw [if_pos hov] at h
                  cases hres2 : outputs.jsIndex (optVal cfg.OUTPUT_VARIABLE) with
                  | error err =>
                    rw [hres2] at h
                    simp at h
                  | ok result =>
                    simp only [hres2] at h
                    obtain ⟨ha, hb, hc, hd⟩ := hres result h
                    exact ⟨ha, fun hf => absurd (htermT.symm.trans hf) (by simp),
                      fun _ => ⟨hb, hc, hd⟩⟩
                · rw [if_neg hov] at h
                  obtain ⟨ha, hb, hc, hd⟩ := hres outputs h
                  exact ⟨ha, fun hf => absurd (htermT.symm.trans hf) (by simp),
                    fun _ => ⟨hb, hc, hd⟩⟩
            · rw [if_neg h4] at h
              by_cases h5 : e = strL "ping"
              · rw [if_pos h5] at h
                cases h
                refine ⟨hsync, fun _ => rfl, fun ht => ?_⟩
                rw [hterm, if_neg (by simp [h5, strL])] at ht
                exact absurd ht (by simp)
              · rw [if_neg h5] at h
                by_cases h6 : e = strL "error"
                · rw [if_pos h6] at h
                  have htermT : isTerminalLine l = true := by
                    rw [hterm, if_pos (Or.inr h6)]
                  by_cases hended : st.isResponseEnded = true
                  · rw [if_pos hended] at h
                    cases h
                    have hrend : st.res.ended = true := by rw [hsync, hended]
                    rw [Res.write_ended _ _ (by simp [Res.status, hrend])]
                    refine ⟨by simp [Res.endR, Res.status],
                      fun hf => absurd (htermT.symm.trans hf) (by simp), fun _ => ?_⟩
                    exact ⟨rfl, fun _ => by simp [Res.endR, Res.status],
                      fun hcontr => absurd hended (by simp [hcontr])⟩
                  · have hend2 : st.isResponseEnded = false := by
                      cases hx : st.isResponseEnded
                      · rfl
                      · exact absurd hx hended
                    rw [if_neg hended] at h
                    cases h
                    have hrnotend : st.res.ended = false := by rw [hsync, hend2]
                    rw [Res.write_not_ended _ _ (by simp [Res.write, Res.status, hrnotend])]
                    rw [Res.write_not_ended _ _ (by simp [Res.write, Res.status, hrnotend])]
                    refine ⟨by simp [Res.endR],
                      fun hf => absurd (htermT.symm.trans hf) (by simp), fun _ => ?_⟩
                    refine ⟨rfl, fun hcontr => absurd hcontr (by simp [hend2]), fun _ => ?_⟩
                    refine ⟨strL "data: "
                        ++ Json.render (Json.obj [(strL "error", obj.get (strL "message"))])
                        ++ strL "\n\n", by simp [Res.endR, Res.status],
                      data_obj_ne_done _ _⟩
                · rw [if_neg h6] at h
                  cases h
                  refine ⟨hsync, fun _ => rfl, fun ht => ?_⟩
                  rw [hterm, if_neg (by simp [h4, h6])] at ht
                  exact absurd ht (by simp)
    | .undef =>
      simp only [dispatchFrame, hevt] at h
      cases h
      simp only [hevt] at hterm
      exact ⟨hsync, fun _ => rfl, fun ht => absurd (hterm.symm.trans ht) (by simp)⟩
    | .null =>
      simp only [dispatchFrame, hevt] at h
      cases h
      simp only [hevt] at hterm
      exact ⟨hsync, fun _ => rfl, fun ht => absurd (hterm.symm.trans ht) (by simp)⟩
    | .bool b =>
      simp only [dispatchFrame, hevt] at h
      cases h
      simp only [hevt] at hterm
      exact ⟨hsync, fun _ => rfl, fun ht => absurd (hterm.symm.trans ht) (by simp)⟩
    | .num q =>
      simp only [dispatchFrame, hevt] at h
      cases h
      simp only [hevt] at hterm
      exact ⟨hsync, fun _ => rfl, fun ht => absurd (hterm.symm.trans ht) (by simp)⟩
    | .arr xs =>
      simp only [dispatchFrame, hevt] at h
      cases h
      simp only [hevt] at hterm
      exact ⟨hsync, fun _ => rfl, fun ht => absurd (hterm.symm.trans ht) (by simp)⟩
    | .obj fs2 =>
      simp only [dispatchFrame, hevt] at h
      cases h
      simp only [hevt] at hterm
      exact ⟨hsync, fun _ => rfl, fun ht => absurd (hterm.symm.trans ht) (by simp)⟩

theorem runStreamLines_cases (cfg : Config) (model : Json) (now : Nat) (ls : List Str) :
    ∀ st st2, st.res.ended = st.isResponseEnded →
      runStreamLines cfg model now st ls = .ok st2 →
      st2.res.ended = st2.isResponseEnded ∧
      st2.isResponseEnded = (st.isResponseEnded || ls.any isTerminalLine) ∧
      (st.isResponseEnded = true → st2.res.writes = st.res.writes) ∧
      (st.isResponseEnded = false →
        (ls.any isTerminalLine = false → st2 = st) ∧
        (ls.any isTerminalLine = true →
          ∃ p, st2.res.writes = st.res.writes ++ [p, doneLine] ∧ p ≠ doneLine)) := by
  induction ls with
  | nil =>
    intro st st2 hsync h
    simp only [runStreamLines, List.foldlM_nil] at h
    cases h
    refine ⟨hsync, by simp, fun _ => rfl, fun _ => ⟨fun _ => rfl, fun hcontr => ?_⟩⟩
    simp at hcontr
  | cons l ls ih =>
    intro st st2 hsync h
    simp only [runStreamLines, List.foldlM_cons] at h
    cases hstep : processStreamLine cfg model now st l with
    | error e =>
      rw [hstep] at h
      exact absurd h (by simp [Bind.bind, Except.bind])
    | ok st1 =>
      rw [hstep] at h
      simp only [Bind.bind, Except.bind] at h
      obtain ⟨hsync1, hnont, hter⟩ :=
        processStreamLine_cases cfg model now st st1 l hsync hstep
      obtain ⟨ihsync, ihend, ihtrue, ihfalse⟩ := ih st1 st2 hsync1 h
      cases hTl : isTerminalLine l with
      | false =>
        rw [hnont hTl] at ihend ihtrue ihfalse
        have hany : (l :: ls).any isTerminalLine = ls.any isTerminalLine := by
          simp [List.any_cons, hTl]
        rw [hany]
        exact ⟨ihsync, ihend, ihtrue, ihfalse⟩
      | true =>
        obtain ⟨hst1end, hpres, hnew⟩ := hter hTl
        have hw2 : st2.res.writes = st1.res.writes := ihtrue hst1end
        refine ⟨ihsync, ?_, ?_, ?_⟩
        · rw [ihend, hst1end]
          simp [hTl]
        · intro hstend
          rw [hw2, hpres hstend]
        · intro hstnotend
          constructor
          · intro hcontr
            rw [List.any_cons, hTl] at hcontr
            simp at hcontr
          · intro _
            obtain ⟨p, hp1, hp2⟩ := hnew hstnotend
            exact ⟨p, by rw [hw2, hp1], hp2⟩

/-- C1: in the streaming path the translator is a sticky two-state machine.
For every sequence of complete lines processed without a listener exception:
if a terminal frame (`workflow_finished` or `error`) occurs, the client
receives exactly one terminal payload followed by exactly one
`data: [DONE]` sentinel and the response latches terminated; if none occurs,
nothing is written; and once terminated, processing any further frames —
terminal-looking ones included — transmits no further bytes. -/
theorem C1_streaming_terminal_once (cfg : Config) (model : Json) (now : Nat)
    (ls more : List Str) (st st2 : StreamSt)
    (h1 : runStreamLines cfg model now initStreamSt ls = .ok st)
    (h2 : runStreamLines cfg model now initStreamSt (ls ++ more) = .ok st2) :
    (ls.any isTerminalLine = true →
      ∃ p, st.res.writes = [p, doneLine] ∧ p ≠ doneLine ∧ st.isResponseEnded = true) ∧
    (ls.any isTerminalLine = false →
      st.res.writes = [] ∧ st.isResponseEnded = false) ∧
    (st.isResponseEnded = true → st2.res.writes = st.res.writes) := by
  obtain ⟨hsync, hend, htrue, hfalse⟩ :=
    runStreamLines_cases cfg model now ls initStreamSt st rfl h1
  have h2split : runStreamLines cfg model now st more = .ok st2 := by
    rw [runStreamLines, List.foldlM_append] at h2
    simp only [runStreamLines] at h1
    rw [h1] at h2
    simpa [Bind.bind, Except.bind] using h2
  refine ⟨?_, ?_, ?_⟩
  · intro hany
    obtain ⟨p, hp1, hp2⟩ := (hfalse rfl).2 hany
    refine ⟨p, by simpa [initStreamSt] using hp1, hp2, ?_⟩
    rw [hend, hany]
    rfl
  · intro hany
    have hst : st = initStreamSt := (hfalse rfl).1 hany
    rw [hst]
    exact ⟨rfl, rfl⟩
  · intro hstend
    obtain ⟨_, _, htrue2, _⟩ :=
      runStreamLines_cases cfg model now more st st2 hsync h2split
    exact htrue2 hstend

/-- Witness for C1: an `error` frame terminates the stream with exactly one
error payload plus one `[DONE]`, and a `workflow_finished` frame arriving
afterwards transmits nothing further. -/
theorem C1_witness :
    (([errLine].any isTerminalLine = true →
      ∃ p, (⟨⟨[strL "data: \x7b\"error\":\"boom\"\x7d\n\n", doneLine], true, 500⟩, true⟩
          : StreamSt).res.writes = [p, doneLine] ∧ p ≠ doneLine ∧
        (⟨⟨[strL "data: \x7b\"error\":\"boom\"\x7d\n\n", doneLine], true, 500⟩, true⟩
          : StreamSt).isResponseEnded = true) ∧
    ([errLine].any isTerminalLine = false →
      (⟨⟨[strL "data: \x7b\"error\":\"boom\"\x7d\n\n", doneLine], true, 500⟩, true⟩
          : StreamSt).res.writes = [] ∧
        (⟨⟨[strL "data: \x7b\"error\":\"boom\"\x7d\n\n", doneLine], true, 500⟩, true⟩
          : StreamSt).isResponseEnded = false) ∧
    ((⟨⟨[strL "data: \x7b\"error\":\"boom\"\x7d\n\n", doneLine], true, 500⟩, true⟩
          : StreamSt).isResponseEnded = true →
      (⟨⟨[strL "data: \x7b\"error\":\"boom\"\x7d\n\n", doneLine], true, 500⟩, true⟩
          : StreamSt).res.writes =
        (⟨⟨[strL "data: \x7b\"error\":\"boom\"\x7d\n\n", doneLine], true, 500⟩, true⟩
          : StreamSt).res.writes)) :=
  C1_streaming_terminal_once {} Json.undef 7 [errLine] [finLine]
    ⟨⟨[strL "data: \x7b\"error\":\"boom\"\x7d\n\n", doneLine], true, 500⟩, true⟩
    ⟨⟨[strL "data: \x7b\"error\":\"boom\"\x7d\n\n", doneLine], true, 500⟩, true⟩
    rfl rfl

/-! Buffer-join correctness of the chunk driver (claim C3). -/

theorem splitNLParts_cons_nl (rest : Str) :
    splitNLParts ('\n' :: rest) =
      ([] :: (splitNLParts rest).1, (splitNLParts rest).2) := rfl

theorem splitNLParts_cons_of_parts (c : Char) (rest : Str) (hc : ¬ c = '\n')
    (l : Str) (ls : List Str) (last : Str)
    (h : splitNLParts rest = (l :: ls, last)) :
    splitNLParts (c :: rest) = ((c :: l) :: ls, last) := by
  simp [splitNLParts, hc, h]

theorem splitNLParts_cons_of_nil (c : Char) (rest : Str) (hc : ¬ c = '\n')
    (last : Str) (h : splitNLParts rest = ([], last)) :
    splitNLParts (c :: rest) = ([], c :: last) := by
  simp [splitNLParts, hc, h]

theorem splitNLParts_cons_congr (c : Char) (r1 r2 : Str) (hc : ¬ c = '\n')
    (h : splitNLParts r1 = splitNLParts r2) :
    splitNLParts (c :: r1) = splitNLParts (c :: r2) := by
  rcases he : splitNLParts r2 with ⟨l1, last⟩
  cases l1 with
  | nil =>
    rw [splitNLParts_cons_of_nil c r1 hc last (h.trans he),
        splitNLParts_cons_of_nil c r2 hc last he]
  | cons l ls =>
    rw [splitNLParts_cons_of_parts c r1 hc l ls last (h.trans he),
        splitNLParts_cons_of_parts c r2 hc l ls last he]

theorem splitNLParts_append (a b : Str) :
    splitNLParts (a ++ b) =
      ((splitNLParts a).1 ++ (splitNLParts ((splitNLParts a).2 ++ b)).1,
       (splitNLParts ((splitNLParts a).2 ++ b)).2) := by
  induction a with
  | nil => simp [splitNLParts]
  | cons c a ih =>
    by_cases hc : c = '\n'
    · subst hc
      simp only [List.cons_append, splitNLParts_cons_nl, ih]
    · rcases hsa : splitNLParts a with ⟨l1, last1⟩
      rw [hsa] at ih
      dsimp only at ih
      cases l1 with
      | nil =>
        rw [List.nil_append] at ih
        have h2 : splitNLParts (a ++ b) = splitNLParts (last1 ++ b) := by
          rw [ih]
        rw [splitNLParts_cons_of_nil c a hc last1 hsa]
        dsimp only
        rw [List.nil_append, List.cons_append, List.cons_append,
            splitNLParts_cons_congr c (a ++ b) (last1 ++ b) hc h2]
      | cons l ls =>
        rw [List.cons_append] at ih
        rw [splitNLParts_cons_of_parts c a hc l ls last1 hsa]
        dsimp only
        simp only [List.cons_append]
        rw [splitNLParts_cons_of_parts c (a ++ b) hc l
            (ls ++ (splitNLParts (last1 ++ b)).1) (splitNLParts (last1 ++ b)).2 ih]

theorem runStreamLines_append (cfg : Config) (model : Json) (now : Nat)
    (st : StreamSt) (l1 l2 : List Str) :
    runStreamLines cfg model now st (l1 ++ l2) =
      match runStreamLines cfg model now st l1 with
      | .error e => .error e
      | .ok st2 => runStreamLines cfg model now st2 l2 := by
  simp only [runStreamLines, List.foldlM_append]
  cases List.foldlM (processStreamLine cfg model now) st l1 with
  | error e => rfl
  | ok st2 => rfl

theorem feedChunk_append (cfg : Config) (model : Json) (now : Nat)
    (d : Except Str DriverSt) (a b : Str) :
    feedChunk cfg model now (feedChunk cfg model now d a) b =
      feedChunk cfg model now d (a ++ b) := by
  cases d with
  | error e => rfl
  | ok dst =>
    simp only [feedChunk, ← List.append_assoc,
      splitNLParts_append (dst.buffer ++ a) b, runStreamLines_append]
    cases h1 : runStreamLines cfg model now dst.st
        (splitNLParts (dst.buffer ++ a)).1 with
    | error e => rfl
    | ok st2 =>
      cases h2 : runStreamLines cfg model now st2
          (splitNLParts ((splitNLParts (dst.buffer ++ a)).2 ++ b)).1 with
      | error e => rfl
      | ok st3 => rfl

theorem foldl_feedChunk (cfg : Config) (model : Json) (now : Nat)
    (cs : List Str) : ∀ (d : Except Str DriverSt) (a : Str),
    List.foldl (feedChunk cfg model now) (feedChunk cfg model now d a) cs =
      feedChunk cfg model now d (a ++ cs.flatten) := by
  induction cs with
  | nil => intro d a; simp
  | cons c cs ih =>
    intro d a
    rw [List.foldl_cons, feedChunk_append, ih, List.flatten_cons,
        List.append_assoc]

/-- C3: feeding a backend byte stream split across arbitrary chunk
boundaries (including mid-line splits) drives the streaming translator to
exactly the same outcome — same processed lines, same client writes, same
retained partial-line buffer — as delivering the concatenation of those
chunks in a single `data` event. -/
theorem C3_buffer_join (cfg : Config) (model : Json) (now : Nat)
    (chunks : List Str) :
    feedChunks cfg model now chunks =
      feedChunks cfg model now [chunks.flatten] := by
  cases chunks with
  | nil => rfl
  | cons c cs =>
    rw [feedChunks, List.foldl_cons, foldl_feedChunk, feedChunks,
        List.flatten_cons]
    rfl

/-! Upstream-failure forwarding (claim C5). -/

/-- Counterexample for C5: a non-2xx upstream answer with `stream = true` is
forwarded verbatim (status and body), not wrapped as an SSE error frame —
the `!response.ok` check precedes the stream branch. -/
theorem C5_counterexample :
    handleResponsePhase {} Json.undef 0 0 [] true resp5c =
      .forwarded 404 (strL "nf") ∧
    isSseErrorWrap (handleResponsePhase {} Json.undef 0 0 [] true resp5c) = false := by
  exact ⟨rfl, rfl⟩

/-- C5 (amended): whenever the backend `/workflows/run` call returns a
non-2xx status, the handler produces no OpenAI-shaped success document: in
both blocking and streaming mode it forwards the upstream status code and
response body verbatim to its own client. -/
theorem C5_nonok_forwarded (cfg : Config) (model : Json) (now : Nat)
    (nowSec : Int) (genId : Str) (stream : Bool) (resp : BackendResp)
    (h : resp.ok = false) :
    handleResponsePhase cfg model now nowSec genId stream resp =
      .forwarded resp.status resp.bodyText := by
  simp [handleResponsePhase, h]

/-- Witness for C5: a concrete failed blocking response is forwarded with
its upstream status and body. -/
theorem C5_witness :
    resp5b.ok = false ∧
    handleResponsePhase {} Json.undef 0 0 [] false resp5b =
      .forwarded 500 (strL "bad") :=
  ⟨rfl, C5_nonok_forwarded {} Json.undef 0 0 [] false resp5b rfl⟩

/-! The blocking JSON document (claim C6). -/

theorem formattedResponseJson_content (model : Json) (nowSec : Int)
    (genId : Str) (result usageData : Json) :
    ((((formattedResponseJson model nowSec genId result usageData).get
        (strL "choices")).item 0).get (strL "message")).get (strL "content") =
      result := rfl

theorem formattedResponseJson_usage (model : Json) (nowSec : Int)
    (genId : Str) (result usageData : Json) :
    (formattedResponseJson model nowSec genId result usageData).get
      (strL "usage") = usageData := rfl

/-- Counterexample for C6: with `data.total_tokens` present but equal to the
falsy number `0`, the emitted `usage.total_tokens` is `110`, not the field's
value — `data.total_tokens || 110` defaults on every falsy value, not only
on an absent one. -/
theorem C6_counterexample :
    parseJson resp6c.bodyText = some json6c ∧
    (json6c.get (strL "data")).get (strL "total_tokens") = Json.num 0 ∧
    handleResponsePhase cfgAnswer Json.undef 0 0 [] false resp6c =
      .jsonDoc 200 (blockingFormatted cfgAnswer Json.undef 0 [] json6c) ∧
    ((blockingFormatted cfgAnswer Json.undef 0 [] json6c).get
        (strL "usage")).get (strL "total_tokens") = Json.num 110 ∧
    Json.num 110 ≠ Json.num 0 := by
  refine ⟨?_, rfl, ?_, ?_, ?_⟩
  · with_unfolding_all rfl
  · with_unfolding_all rfl
  · with_unfolding_all rfl
  · intro h
    injection h with h2
    norm_num at h2

/-- C6 (amended): in the blocking path with a JSON content type, when the
parsed body's `data` and `data.outputs` are truthy, the emitted document has
`choices[0].message.content` equal to `outputs[OUTPUT_VARIABLE]` when the
variable is configured and to the whole `outputs` object otherwise, and
`usage.total_tokens` equal to `data.total_tokens` when that value is truthy
and `110` otherwise (also when the field is present but falsy). -/
theorem C6_blocking_document (cfg : Config) (model : Json) (now : Nat)
    (nowSec : Int) (genId : Str) (resp : BackendResp) (ct : Str) (j : Json)
    (hok : resp.ok = true) (hct : resp.contentType = some ct)
    (hjs : containsL (strL "application/json") ct = true)
    (hp : parseJson resp.bodyText = some j)
    (hdta : (j.get (strL "data")).truthy = true)
    (hout : ((j.get (strL "data")).get (strL "outputs")).truthy = true) :
    handleResponsePhase cfg model now nowSec genId false resp =
      .jsonDoc 200 (blockingFormatted cfg model nowSec genId j) ∧
    ((((blockingFormatted cfg model nowSec genId j).get
        (strL "choices")).item 0).get (strL "message")).get (strL "content") =
      (if optTruthy cfg.OUTPUT_VARIABLE then
        ((j.get (strL "data")).get (strL "outputs")).get (optVal cfg.OUTPUT_VARIABLE)
      else (j.get (strL "data")).get (strL "outputs")) ∧
    ((blockingFormatted cfg model nowSec genId j).get (strL "usage")).get
        (strL "total_tokens") =
      (if ((j.get (strL "data")).get (strL "total_tokens")).truthy then
        (j.get (strL "data")).get (strL "total_tokens")
      else Json.num 110) := by
  refine ⟨?_, ?_, ?_⟩
  · simp [handleResponsePhase, hok, hct, hjs, hp]
  · simp only [blockingFormatted, formattedResponseJson_content]
    rw [if_pos ⟨hdta, hout⟩]
  · simp only [blockingFormatted, formattedResponseJson_usage]
    rw [if_pos ⟨hdta, hout⟩]
    rfl

/-- Witness for C6: the claim's example body with `OUTPUT_VARIABLE` set to
`answer` yields content `"hi"` and `usage.total_tokens` `42`. -/
theorem C6_witness :
    resp6w.ok = true ∧
    resp6w.contentType = some (strL "application/json") ∧
    containsL (strL "application/json") (strL "application/json") = true ∧
    parseJson resp6w.bodyText = some json6w ∧
    (json6w.get (strL "data")).truthy = true ∧
    ((json6w.get (strL "data")).get (strL "outputs")).truthy = true ∧
    (handleResponsePhase cfgAnswer Json.undef 0 0 [] false resp6w =
      .jsonDoc 200 (blockingFormatted cfgAnswer Json.undef 0 [] json6w) ∧
    ((((blockingFormatted cfgAnswer Json.undef 0 [] json6w).get
        (strL "choices")).item 0).get (strL "message")).get (strL "content") =
      Json.str (strL "hi") ∧
    ((blockingFormatted cfgAnswer Json.undef 0 [] json6w).get
        (strL "usage")).get (strL "total_tokens") = Json.num 42) := by
  have hp : parseJson resp6w.bodyText = some json6w := by with_unfolding_all rfl
  refine ⟨rfl, rfl, rfl, hp, rfl, rfl, ?_⟩
  have h := C6_blocking_document cfgAnswer Json.undef 0 0 [] resp6w
    (strL "application/json") json6w rfl rfl rfl hp rfl rfl
  with_unfolding_all exact h
